import Mathlib

/-
Verification of the cita state engine (`cita-executor/core/src/state/mod.rs`):
a checkpointed, cached account state layered over an authenticated trie.

The engine code in `mod.rs` is embedded faithfully below.  The `Account`
record type lives in `state/account.rs`, which is not part of the sources;
its operations are modelled from the specification (each such definition
carries a doc comment starting with "Modelled from the spec").  Hashes and
addresses are opaque identifiers, modelled as natural numbers; the
distinguished constants (the hash of the empty string, the empty-trie root)
are arbitrary distinct naturals, distinct from the all-zero hash 0.
-/

namespace Cita

/-- Opaque 32-byte digest, modelled as a natural number.  The all-zero
hash `H256::new()` is `0`. -/
abbrev Hash := Nat

/-- Opaque 20-byte account identifier. -/
abbrev Address := Nat

/-- Byte sequence (code or ABI blob). -/
abbrev Bytes := List Nat

/-- Modelled from the spec: `EMPTY_HASH`, the hash of the empty byte string
under the configured digest.  An opaque constant, distinct from the
all-zero hash `0`. -/
def HASH_EMPTY : Hash := 1

/-- Modelled from the spec: the root hash of an empty per-account trie.
An opaque constant distinct from `0` and `HASH_EMPTY`. -/
def NULL_RLP_ROOT : Hash := 2

/-- 2 ^ 256, the modulus of the wide unsigned scalars (`U256`). -/
def U256LIMIT : Nat := 2 ^ 256

/-- Modelled from the spec: a stand-in for the configured cryptographic
digest of a byte sequence.  The claims never constrain its value; any
deterministic function works for the model. -/
def hashBytes (b : Bytes) : Hash :=
  b.foldl (fun h x => h * U256LIMIT + x + 1) 3

/-! ### Association-list maps

`HashMap<K, V>` is modelled as an association list where `alookup`
returns the first binding of a key and `ainsert` replaces any existing
binding. -/

/-- First binding of `k` in the association list `l`. -/
def alookup {α β : Type} [DecidableEq α] (l : List (α × β)) (k : α) : Option β :=
  (l.find? (fun p => p.1 = k)).map (fun p => p.2)

/-- Whether `l` binds `k` (`HashMap::contains_key`). -/
def acontains {α β : Type} [DecidableEq α] (l : List (α × β)) (k : α) : Bool :=
  (alookup l k).isSome

/-- Bind `k` to `v`, dropping any previous binding (`HashMap::insert`). -/
def ainsert {α β : Type} [DecidableEq α] (k : α) (v : β) (l : List (α × β)) :
    List (α × β) :=
  (k, v) :: l.filter (fun p => ¬ p.1 = k)

/-- Remove the binding of `k` (`HashMap::remove` / `Entry::remove`). -/
def aremove {α β : Type} [DecidableEq α] (k : α) (l : List (α × β)) :
    List (α × β) :=
  l.filter (fun p => ¬ p.1 = k)

/-- Bind `k` to `v` only when `l` does not bind it (`Entry::or_insert`). -/
def orInsert {α β : Type} [DecidableEq α] (l : List (α × β)) (k : α) (v : β) :
    List (α × β) :=
  if acontains l k then l else (k, v) :: l

/-! ### The account record -/

/-- The four mandatory fields of the account wire format, in order:
nonce, storage root, code hash, ABI hash.  This is what the top trie
stores at an address. -/
structure RlpAccount where
  nonce : Nat
  storageRoot : Hash
  codeHash : Hash
  abiHash : Hash
deriving Repr, DecidableEq

/-- Modelled from the spec: the in-memory account record of
`state/account.rs` (not under the sources).  `codeHash`/`abiHash` are
`none` while a freshly initialised blob awaits its commit-time hash
recomputation; `storageOverlay` holds the cells read or pending-write in
this session. -/
structure Account where
  nonce : Nat
  storageRoot : Hash
  codeHash : Option Hash
  codeBlob : Option Bytes
  abiHash : Option Hash
  abiBlob : Option Bytes
  storageOverlay : List (Hash × Hash)
deriving Repr, DecidableEq

/-- The backend adapter plus the trie factories, abstracted to the
functions the engine consumes.  `topTrie root a` is the decoded account
leaf of the top trie at root `root` for address `a`: `none` models a trie
read error, `some none` a missing leaf, `some (some r)` a present record.
`storageTrie sr k` is the committed cell value of the per-account trie
rooted at `sr` (absent cells read as zero); `blob h` is the out-of-band
byte blob stored under content hash `h`.  The two commit fields abstract
the write side of the commit pipeline: the storage root produced by
flushing an overlay into a sub-trie, and the top-trie root produced by
inserting/removing the dirty records. -/
structure Backend where
  topTrie : Hash → Address → Option (Option RlpAccount)
  storageTrie : Hash → Hash → Hash
  blob : Hash → Option Bytes
  commitStorageRoot : Hash → List (Hash × Hash) → Hash
  commitTopRoot : Hash → List (Address × Option RlpAccount) → Hash

namespace Account

/-- Modelled from the spec: the code-hash getter; the empty-string hash
while a fresh blob awaits recomputation. -/
def codeHashV (a : Account) : Hash := a.codeHash.getD HASH_EMPTY

/-- Modelled from the spec: the ABI-hash getter. -/
def abiHashV (a : Account) : Hash := a.abiHash.getD HASH_EMPTY

/-- Modelled from the spec: a fresh contract record — given nonce,
`EMPTY_HASH` code/ABI, empty storage. -/
def newContract (nonce : Nat) : Account :=
  { nonce := nonce
    storageRoot := NULL_RLP_ROOT
    codeHash := some HASH_EMPTY
    codeBlob := some []
    abiHash := some HASH_EMPTY
    abiBlob := some []
    storageOverlay := [] }

/-- Modelled from the spec: a basic (non-contract) account at the given
nonce. -/
def newBasic (nonce : Nat) : Account := newContract nonce

/-- Modelled from the spec: decoding an account leaf (`Account::from_rlp`)
yields the four mandatory fields with an empty overlay and no cached
blobs. -/
def fromRlp (r : RlpAccount) : Account :=
  { nonce := r.nonce
    storageRoot := r.storageRoot
    codeHash := some r.codeHash
    codeBlob := none
    abiHash := some r.abiHash
    abiBlob := none
    storageOverlay := [] }

/-- Modelled from the spec: the wire encoding of the record
(`Account::rlp`), the four mandatory fields in order. -/
def toRlp (a : Account) : RlpAccount :=
  { nonce := a.nonce
    storageRoot := a.storageRoot
    codeHash := a.codeHashV
    abiHash := a.abiHashV }

/-- Modelled from the spec: add one to the nonce (wide unsigned scalar). -/
def incNonce (a : Account) : Account :=
  { a with nonce := (a.nonce + 1) % U256LIMIT }

/-- Modelled from the spec: record a pending storage write in the
overlay. -/
def setStorage (k v : Hash) (a : Account) : Account :=
  { a with storageOverlay := ainsert k v a.storageOverlay }

/-- Modelled from the spec: the overlay-first storage read
(`cached_storage_at`). -/
def cachedStorageAt (a : Account) (k : Hash) : Option Hash :=
  alookup a.storageOverlay k

/-- Modelled from the spec: a storage read that consults the overlay
first and on a miss the per-account trie rooted at `storageRoot`
(absent cells read as zero). -/
def storageAt (a : Account) (db : Backend) (k : Hash) : Hash :=
  (a.cachedStorageAt k).getD (db.storageTrie a.storageRoot k)

/-- Modelled from the spec: a record is null iff its nonce is the
configured start-nonce and both hashes are `EMPTY_HASH`. -/
def isNull (startNonce : Nat) (a : Account) : Bool :=
  a.nonce == startNonce && a.codeHashV == HASH_EMPTY && a.abiHashV == HASH_EMPTY

/-- Modelled from the spec: the "code cached?" flag. -/
def isCached (a : Account) : Bool := a.codeBlob.isSome

/-- Modelled from the spec: the "abi cached?" flag. -/
def isAbiCached (a : Account) : Bool := a.abiBlob.isSome

/-- Modelled from the spec: fetch the raw code bytes from the
per-account view keyed by the code hash (`cache_code`). -/
def cacheCode (db : Backend) (a : Account) : Account :=
  { a with codeBlob := db.blob a.codeHashV }

/-- Modelled from the spec: fetch the raw ABI bytes (`cache_abi`). -/
def cacheAbi (db : Backend) (a : Account) : Account :=
  { a with abiBlob := db.blob a.abiHashV }

/-- Modelled from the spec: `init_code` clears the cached hash and marks
the blob as the new value; the hash is recomputed on commit. -/
def initCode (c : Bytes) (a : Account) : Account :=
  { a with codeBlob := some c, codeHash := none }

/-- Modelled from the spec: `reset_code` has the same semantics as
`init_code`. -/
def resetCode (c : Bytes) (a : Account) : Account := a.initCode c

/-- Modelled from the spec: `init_abi`, analogous to `init_code`. -/
def initAbi (c : Bytes) (a : Account) : Account :=
  { a with abiBlob := some c, abiHash := none }

/-- Modelled from the spec: `reset_abi`, analogous to `reset_code`. -/
def resetAbi (c : Bytes) (a : Account) : Account := a.initAbi c

/-- Modelled from the spec: the dirty clone preserves the basic data and
the modified storage cells (it may, but need not, discard re-fetchable
blob caches; the model keeps them). -/
def cloneDirty (a : Account) : Account := a

/-- Modelled from the spec: `Account::overwrite_with` — take the other
record's mandatory fields; merge the storage overlay so that entries
present only in the receiver survive and the other's entries win on key
conflicts; blob caches of the receiver survive when the other lacks
them. -/
def overwriteWith (self other : Account) : Account :=
  { nonce := other.nonce
    storageRoot := other.storageRoot
    codeHash := other.codeHash
    codeBlob := other.codeBlob <|> self.codeBlob
    abiHash := other.abiHash
    abiBlob := other.abiBlob <|> self.abiBlob
    storageOverlay :=
      other.storageOverlay.foldl (fun acc p => ainsert p.1 p.2 acc)
        self.storageOverlay }

/-- Modelled from the spec: commit-time per-account flush
(`commit_storage` / `commit_code` / `commit_abi`): the overlay is written
into the sub-trie (abstracted through the backend), and pending blob
hashes are recomputed. -/
def commitAccount (db : Backend) (a : Account) : Account :=
  { a with
    storageRoot := db.commitStorageRoot a.storageRoot a.storageOverlay
    codeHash := some (match a.codeHash with
      | some h => h
      | none => hashBytes (a.codeBlob.getD []))
    abiHash := some (match a.abiHash with
      | some h => h
      | none => hashBytes (a.abiBlob.getD [])) }

end Account

/-! ### Cache entries (`AccountEntry`, from `mod.rs`) -/

/-- `AccountState`: the modification tag of a cache entry. -/
inductive AccountState where
  | CleanFresh
  | Dirty
  | Committed
deriving Repr, DecidableEq

/-- `AccountEntry`: an optional account record together with its
modification tag. -/
structure AccountEntry where
  account : Option Account
  state : AccountState
deriving Repr, DecidableEq

namespace AccountEntry

/-- `AccountEntry::is_dirty`. -/
def isDirty (e : AccountEntry) : Bool := e.state == AccountState.Dirty

/-- `AccountEntry::clone_dirty`: clone the basic account data and the
modified storage keys, preserving the tag. -/
def cloneDirty (e : AccountEntry) : AccountEntry :=
  { account := e.account.map Account.cloneDirty, state := e.state }

/-- `AccountEntry::clone_if_dirty`: the dirty clone when the tag is
`Dirty`, otherwise nothing. -/
def cloneIfDirty (e : AccountEntry) : Option AccountEntry :=
  if e.isDirty then some e.cloneDirty else none

/-- `AccountEntry::new_dirty`. -/
def newDirty (account : Option Account) : AccountEntry :=
  { account := account, state := AccountState.Dirty }

/-- `AccountEntry::new_clean`. -/
def newClean (account : Option Account) : AccountEntry :=
  { account := account, state := AccountState.CleanFresh }

/-- `AccountEntry::overwrite_with` (mod.rs lines 138-148), translated
branch for branch: the tag is taken from `other`; when `other` holds an
account it is merged into the receiver's account only if the receiver
also holds one (the source has no else branch for the case where the
receiver holds none); when `other` holds none the receiver's account is
cleared. -/
def overwriteWith (self other : AccountEntry) : AccountEntry :=
  let self₁ := { self with state := other.state }
  match other.account with
  | some acc =>
    match self₁.account with
    | some ours => { self₁ with account := some (ours.overwriteWith acc) }
    | none => self₁
  | none => { self₁ with account := none }

end AccountEntry

/-! ### The state engine (`State`, from `mod.rs`) -/

/-- A checkpoint frame: address to prior cache entry, or `none` for "the
address had no cache entry". -/
abbrev Frame := List (Address × Option AccountEntry)

/-- Trie-level read errors surfaced by the engine's fallible
operations. -/
inductive TrieErr where
  | trieRead
deriving Repr, DecidableEq

/-- Engine-level commit errors: the checkpoint-stack assertion at the
top of `commit` (a panic in the source), as a distinguished error
value. -/
inductive CommitErr where
  | checkpointAssertion
deriving Repr, DecidableEq

/-- The state engine: backend handle, current top-trie root, account
cache, checkpoint stack (head = most recent frame), and the configured
start nonce.  The auxiliary permission sets are opaque to the core and
omitted. -/
structure State where
  db : Backend
  root : Hash
  cache : List (Address × AccountEntry)
  checkpoints : List Frame
  accountStartNonce : Nat

/-- Which lazily-loaded blob a read requires (`RequireCache`). -/
inductive RequireCache where
  | noReq
  | codeSize
  | code
  | abiSize
  | abi
deriving Repr, DecidableEq

namespace State

/-- `State::checkpoint`: push an empty frame. -/
def checkpoint (s : State) : State :=
  { s with checkpoints := [] :: s.checkpoints }

/-- `State::discard_checkpoint`: pop the top frame and merge it into the
previous one — the parent is replaced wholesale when empty, otherwise
each drained slot is inserted only where the parent holds no slot.  An
empty stack pops nothing. -/
def discardCheckpoint (s : State) : State :=
  match s.checkpoints with
  | [] => s
  | c :: rest =>
    match rest with
    | [] => { s with checkpoints := [] }
    | prev :: rest₂ =>
      if prev.isEmpty then { s with checkpoints := c :: rest₂ }
      else
        { s with
          checkpoints :=
            (c.foldl (fun acc p => orInsert acc p.1 p.2) prev) :: rest₂ }

/-- One slot of `State::revert_to_checkpoint`'s drain loop: a saved
entry is merged back via `overwrite_with` when the cache holds the
address, or inserted; a saved "absent" removes the cache entry only when
it is dirty. -/
def revertEntry (cache : List (Address × AccountEntry)) (k : Address)
    (v : Option AccountEntry) : List (Address × AccountEntry) :=
  match v with
  | some v =>
    match alookup cache k with
    | some e => ainsert k (e.overwriteWith v) cache
    | none => ainsert k v cache
  | none =>
    match alookup cache k with
    | some e => if e.isDirty then aremove k cache else cache
    | none => cache

/-- `State::revert_to_checkpoint`: pop the top frame and restore each
saved slot into the cache.  An empty stack pops nothing. -/
def revertToCheckpoint (s : State) : State :=
  match s.checkpoints with
  | [] => s
  | c :: rest =>
    { s with
      checkpoints := rest
      cache := c.foldl (fun cc p => revertEntry cc p.1 p.2) s.cache }

/-- `State::insert_cache`: a dirty entry inserted while the top frame
does not yet hold the address records the previous cache entry (possibly
"absent") in the frame; in every case the cache receives the new
entry. -/
def insertCache (s : State) (a : Address) (e : AccountEntry) : State :=
  match s.checkpoints with
  | f :: rest =>
    if e.isDirty && !(acontains f a) then
      { s with
        checkpoints := ((a, alookup s.cache a) :: f) :: rest
        cache := ainsert a e s.cache }
    else { s with cache := ainsert a e s.cache }
  | [] => { s with cache := ainsert a e s.cache }

/-- `State::note_cache`: when a top frame exists and does not yet hold
the address, record the dirty-clone of the current cache entry (or
"absent" when the cache holds no entry). -/
def noteCache (s : State) (a : Address) : State :=
  match s.checkpoints with
  | f :: rest =>
    if acontains f a then s
    else
      { s with
        checkpoints :=
          ((a, (alookup s.cache a).map AccountEntry.cloneDirty) :: f) :: rest }
  | [] => s

/-- `State::update_account_cache`: ensure the code (resp. ABI) blob is
cached when the required kind asks for it and it is not yet cached. -/
def updateAccountCache (req : RequireCache) (db : Backend) (a : Account) :
    Account :=
  let a₁ :=
    match a.isCached, req with
    | false, RequireCache.code => a.cacheCode db
    | false, RequireCache.codeSize => a.cacheCode db
    | _, _ => a
  match a₁.isAbiCached, req with
  | false, RequireCache.abi => a₁.cacheAbi db
  | false, RequireCache.abiSize => a₁.cacheAbi db
  | _, _ => a₁

/-- `State::ensure_cached`, returning the resolved optional account (the
argument handed to the caller's closure) together with the possibly
updated engine: a cache hit with a present account refreshes the
required blob in place; a miss consults the top trie, propagating a read
error untouched, and installs the result as a `CleanFresh` entry. -/
def ensureCached (s : State) (req : RequireCache) (a : Address) :
    Except TrieErr (Option Account) × State :=
  match alookup s.cache a with
  | some e =>
    match e.account with
    | some acct =>
      let acct₁ := updateAccountCache req s.db acct
      (Except.ok (some acct₁),
        { s with cache := ainsert a { e with account := some acct₁ } s.cache })
    | none => (Except.ok none, s)
  | none =>
    match s.db.topTrie s.root a with
    | none => (Except.error TrieErr.trieRead, s)
    | some none =>
      (Except.ok none, insertCache s a (AccountEntry.newClean none))
    | some (some r) =>
      let acct := updateAccountCache req s.db (Account.fromRlp r)
      (Except.ok (some acct),
        insertCache s a (AccountEntry.newClean (some acct)))

/-- `State::exists`: whether an account exists. -/
def existsAccount (s : State) (a : Address) : Except TrieErr Bool × State :=
  let (r, s₁) := ensureCached s RequireCache.noReq a
  (r.map Option.isSome, s₁)

/-- `State::exists_and_not_null`. -/
def existsAndNotNull (s : State) (a : Address) : Except TrieErr Bool × State :=
  let (r, s₁) := ensureCached s RequireCache.noReq a
  (r.map (fun acc? => acc?.elim false
    (fun acc => !(acc.isNull s.accountStartNonce))), s₁)

/-- `State::exists_and_has_code_or_nonce`: requires the code size; false
for an absent account, else true exactly when the code hash differs from
`EMPTY_HASH` or the nonce differs from the start nonce. -/
def existsAndHasCodeOrNonce (s : State) (a : Address) :
    Except TrieErr Bool × State :=
  let (r, s₁) := ensureCached s RequireCache.codeSize a
  (r.map (fun acc? => acc?.elim false
    (fun acc =>
      acc.codeHashV != HASH_EMPTY || acc.nonce != s.accountStartNonce)), s₁)

/-- `State::nonce`: the account's nonce, or the start nonce when
absent. -/
def nonce (s : State) (a : Address) : Except TrieErr Nat × State :=
  let (r, s₁) := ensureCached s RequireCache.noReq a
  (r.map (fun acc? => acc?.elim s.accountStartNonce Account.nonce), s₁)

/-- `State::storage_root`. -/
def storageRoot (s : State) (a : Address) :
    Except TrieErr (Option Hash) × State :=
  let (r, s₁) := ensureCached s RequireCache.noReq a
  (r.map (fun acc? => acc?.map Account.storageRoot), s₁)

/-- `State::storage_at` (mod.rs lines 440-492): a cached present account
answers from its overlay, or from its sub-trie; a cached absent account
answers the zero hash; an uncached address consults the top trie,
propagating a read error untouched, answers (zero for a missing leaf),
and installs the decoded result as a `CleanFresh` entry. -/
def storageAt (s : State) (a : Address) (k : Hash) :
    Except TrieErr Hash × State :=
  match alookup s.cache a with
  | some e =>
    match e.account with
    | some acct =>
      match acct.cachedStorageAt k with
      | some v => (Except.ok v, s)
      | none => (Except.ok (acct.storageAt s.db k), s)
    | none => (Except.ok 0, s)
  | none =>
    match s.db.topTrie s.root a with
    | none => (Except.error TrieErr.trieRead, s)
    | some maybe =>
      let acct? := maybe.map Account.fromRlp
      let v := match acct? with
        | some acct => acct.storageAt s.db k
        | none => 0
      (Except.ok v, insertCache s a (AccountEntry.newClean acct?))

/-- `State::code`. -/
def code (s : State) (a : Address) :
    Except TrieErr (Option Bytes) × State :=
  let (r, s₁) := ensureCached s RequireCache.code a
  (r.map (fun acc? => acc?.elim none Account.codeBlob), s₁)

/-- `State::code_hash`. -/
def codeHash (s : State) (a : Address) : Except TrieErr Hash × State :=
  let (r, s₁) := ensureCached s RequireCache.noReq a
  (r.map (fun acc? => acc?.elim HASH_EMPTY Account.codeHashV), s₁)

/-- `State::code_size`. -/
def codeSize (s : State) (a : Address) :
    Except TrieErr (Option Nat) × State :=
  let (r, s₁) := ensureCached s RequireCache.codeSize a
  (r.map (fun acc? => acc?.bind (fun acc => acc.codeBlob.map List.length)), s₁)

/-- `State::abi`. -/
def abi (s : State) (a : Address) :
    Except TrieErr (Option Bytes) × State :=
  let (r, s₁) := ensureCached s RequireCache.abi a
  (r.map (fun acc? => acc?.elim none Account.abiBlob), s₁)

/-- `State::abi_hash`. -/
def abiHash (s : State) (a : Address) : Except TrieErr Hash × State :=
  let (r, s₁) := ensureCached s RequireCache.noReq a
  (r.map (fun acc? => acc?.elim HASH_EMPTY Account.abiHashV), s₁)

/-- `State::abi_size`. -/
def abiSize (s : State) (a : Address) :
    Except TrieErr (Option Nat) × State :=
  let (r, s₁) := ensureCached s RequireCache.abiSize a
  (r.map (fun acc? => acc?.bind (fun acc => acc.abiBlob.map List.length)), s₁)

/-- `State::require_or_from`, fused with the caller's mutation `f` of
the returned mutable account handle: ensure the address is cached
(loading from the top trie and installing a `CleanFresh` entry on a
miss, propagating a read error untouched), note the undo slot, replace
an absent account by `default` or adjust a present one by `notDefault`,
set the tag to `Dirty`, refresh the required blobs, and apply `f`. -/
def requireOrFromApply (s : State) (a : Address)
    (requireCode requireAbi : Bool) (default : Account)
    (notDefault : Account → Account) (f : Account → Account) :
    Except TrieErr State :=
  let step₁ : Except TrieErr State :=
    if acontains s.cache a then Except.ok s
    else
      match s.db.topTrie s.root a with
      | none => Except.error TrieErr.trieRead
      | some maybe =>
        Except.ok
          (insertCache s a (AccountEntry.newClean (maybe.map Account.fromRlp)))
  match step₁ with
  | Except.error e => Except.error e
  | Except.ok s₁ =>
    let s₂ := noteCache s₁ a
    match alookup s₂.cache a with
    | none => Except.ok s₂
    | some entry =>
      let acct₀ := match entry.account with
        | some acc => notDefault acc
        | none => default
      let acct₁ :=
        if requireCode then updateAccountCache RequireCache.code s₂.db acct₀
        else acct₀
      let acct₂ :=
        if requireAbi then updateAccountCache RequireCache.abi s₂.db acct₁
        else acct₁
      Except.ok
        { s₂ with
          cache :=
            ainsert a
              { account := some (f acct₂), state := AccountState.Dirty }
              s₂.cache }

/-- `State::inc_nonce` via the require path. -/
def incNonce (s : State) (a : Address) : Except TrieErr Unit × State :=
  match requireOrFromApply s a false false
      (Account.newBasic s.accountStartNonce) id Account.incNonce with
  | Except.ok s₁ => (Except.ok (), s₁)
  | Except.error e => (Except.error e, s)

/-- `State::set_storage`: a no-op when the currently stored value
already equals `value`, else a dirtying overlay write via the require
path. -/
def setStorage (s : State) (a : Address) (k v : Hash) :
    Except TrieErr Unit × State :=
  let (r, s₁) := storageAt s a k
  match r with
  | Except.error e => (Except.error e, s₁)
  | Except.ok cur =>
    if cur = v then (Except.ok (), s₁)
    else
      match requireOrFromApply s₁ a false false
          (Account.newBasic s₁.accountStartNonce) id
          (Account.setStorage k v) with
      | Except.ok s₂ => (Except.ok (), s₂)
      | Except.error e => (Except.error e, s₁)

/-- `State::init_code` via `require_or_from` with a fresh contract
default and code required. -/
def initCode (s : State) (a : Address) (c : Bytes) :
    Except TrieErr Unit × State :=
  match requireOrFromApply s a true false
      (Account.newContract s.accountStartNonce) id (Account.initCode c) with
  | Except.ok s₁ => (Except.ok (), s₁)
  | Except.error e => (Except.error e, s)

/-- `State::reset_code`. -/
def resetCode (s : State) (a : Address) (c : Bytes) :
    Except TrieErr Unit × State :=
  match requireOrFromApply s a true false
      (Account.newContract s.accountStartNonce) id (Account.resetCode c) with
  | Except.ok s₁ => (Except.ok (), s₁)
  | Except.error e => (Except.error e, s)

/-- `State::init_abi` via `require_or_from` with the ABI required. -/
def initAbi (s : State) (a : Address) (c : Bytes) :
    Except TrieErr Unit × State :=
  match requireOrFromApply s a false true
      (Account.newContract s.accountStartNonce) id (Account.initAbi c) with
  | Except.ok s₁ => (Except.ok (), s₁)
  | Except.error e => (Except.error e, s)

/-- `State::reset_abi`. -/
def resetAbi (s : State) (a : Address) (c : Bytes) :
    Except TrieErr Unit × State :=
  match requireOrFromApply s a false true
      (Account.newContract s.accountStartNonce) id (Account.resetAbi c) with
  | Except.ok s₁ => (Except.ok (), s₁)
  | Except.error e => (Except.error e, s)

/-- `State::new_contract`: install a fresh dirty contract entry at
start-nonce plus offset. -/
def newContract (s : State) (a : Address) (offset : Nat) : State :=
  insertCache s a
    (AccountEntry.newDirty
      (some (Account.newContract ((s.accountStartNonce + offset) % U256LIMIT))))

/-- `State::kill_account`: install a dirty "absent" entry. -/
def killAccount (s : State) (a : Address) : State :=
  insertCache s a (AccountEntry.newDirty none)

/-- `State::clear`. -/
def clear (s : State) : State := { s with cache := [] }

/-- `State::commit_into` (the body under the assertion): flush each
dirty account through its sub-trie/code/ABI commit, mark every dirty
entry `Committed`, and update the root through the top trie. -/
def commitInto (s : State) : State :=
  let flushed : List (Address × AccountEntry) :=
    s.cache.map (fun p =>
      if p.2.isDirty then
        (p.1,
          { account := p.2.account.map (Account.commitAccount s.db)
            state := AccountState.Committed })
      else p)
  let dirtyRecords : List (Address × Option RlpAccount) :=
    (s.cache.filter (fun p => p.2.isDirty)).map (fun p =>
      (p.1, (p.2.account.map (Account.commitAccount s.db)).map Account.toRlp))
  { s with
    cache := flushed
    root := s.db.commitTopRoot s.root dirtyRecords }

/-- `State::commit`: the checkpoint-stack emptiness assertion (a panic
in the source, modelled as a distinguished error value returned before
any trie access), then `commit_into`. -/
def commit (s : State) : Except CommitErr State :=
  if s.checkpoints.isEmpty then Except.ok (commitInto s)
  else Except.error CommitErr.checkpointAssertion

/-- `impl Clone for State` (mod.rs lines 887-911): copy only the
dirty-clones of dirty cache entries, share the backend through its boxed
clone (value copy in the model), keep the root, and start with an empty
checkpoint stack. -/
def cloneState (s : State) : State :=
  { db := s.db
    root := s.root
    cache :=
      s.cache.filterMap (fun p => (p.2.cloneIfDirty).map (fun e => (p.1, e)))
    checkpoints := []
    accountStartNonce := s.accountStartNonce }

end State

/-! ### Operation sequences over the engine -/

/-- One engine operation: the account-lifecycle mutations, the reads
(which may install `CleanFresh` cache entries), and the checkpoint
protocol.  `commit` is deliberately absent — every claim quantifying
over sequences excludes it. -/
inductive Op where
  | incNonce (a : Address)
  | setStorage (a : Address) (k v : Hash)
  | newContract (a : Address) (offset : Nat)
  | killAccount (a : Address)
  | initCode (a : Address) (c : Bytes)
  | resetCode (a : Address) (c : Bytes)
  | initAbi (a : Address) (c : Bytes)
  | resetAbi (a : Address) (c : Bytes)
  | readExists (a : Address)
  | readExistsAndNotNull (a : Address)
  | readExistsAndHasCodeOrNonce (a : Address)
  | readNonce (a : Address)
  | readStorageRoot (a : Address)
  | readStorageAt (a : Address) (k : Hash)
  | readCode (a : Address)
  | readCodeHash (a : Address)
  | readCodeSize (a : Address)
  | readAbi (a : Address)
  | readAbiHash (a : Address)
  | readAbiSize (a : Address)
  | checkpoint
  | discard
  | revert
deriving Repr, DecidableEq

/-- The state reached after one operation (a failed fallible operation
leaves the engine in the state the source leaves it in). -/
def stepOp (s : State) : Op → State
  | Op.incNonce a => (s.incNonce a).2
  | Op.setStorage a k v => (s.setStorage a k v).2
  | Op.newContract a off => s.newContract a off
  | Op.killAccount a => s.killAccount a
  | Op.initCode a c => (s.initCode a c).2
  | Op.resetCode a c => (s.resetCode a c).2
  | Op.initAbi a c => (s.initAbi a c).2
  | Op.resetAbi a c => (s.resetAbi a c).2
  | Op.readExists a => (s.existsAccount a).2
  | Op.readExistsAndNotNull a => (s.existsAndNotNull a).2
  | Op.readExistsAndHasCodeOrNonce a => (s.existsAndHasCodeOrNonce a).2
  | Op.readNonce a => (s.nonce a).2
  | Op.readStorageRoot a => (s.storageRoot a).2
  | Op.readStorageAt a k => (s.storageAt a k).2
  | Op.readCode a => (s.code a).2
  | Op.readCodeHash a => (s.codeHash a).2
  | Op.readCodeSize a => (s.codeSize a).2
  | Op.readAbi a => (s.abi a).2
  | Op.readAbiHash a => (s.abiHash a).2
  | Op.readAbiSize a => (s.abiSize a).2
  | Op.checkpoint => s.checkpoint
  | Op.discard => s.discardCheckpoint
  | Op.revert => s.revertToCheckpoint

/-- Run a sequence of operations left to right. -/
def runOps (s : State) : List Op → State
  | [] => s
  | op :: rest => runOps (stepOp s op) rest

/-- Nesting balance of a sequence relative to a starting depth of
already-open inner checkpoints: every `discard`/`revert` closes a
checkpoint opened within the sequence, and the sequence closes all the
checkpoints it opens. -/
def balancedFrom : List Op → Nat → Bool
  | [], d => d == 0
  | op :: rest, d =>
    match op with
    | Op.checkpoint => balancedFrom rest (d + 1)
    | Op.discard => decide (0 < d) && balancedFrom rest (d - 1)
    | Op.revert => decide (0 < d) && balancedFrom rest (d - 1)
    | _ => balancedFrom rest d

/-- A sequence with balanced nested checkpoints. -/
def balanced (ops : List Op) : Bool := balancedFrom ops 0

/-! ### Observational equivalence on the read surface -/

/-- Two engines agree on everything the read surface can consult: the
cache, the backend, the root and the start nonce (the checkpoint stack
is invisible to reads). -/
def obsEq (s t : State) : Prop :=
  s.cache = t.cache ∧ s.db = t.db ∧ s.root = t.root ∧
    s.accountStartNonce = t.accountStartNonce

/-- The read surface at one address and storage key: the values returned
by every read operation, plus the root. -/
def readSurface (s : State) (a : Address) (k : Hash) :
    Except TrieErr Bool × Except TrieErr Bool × Except TrieErr Bool ×
    Except TrieErr Nat × Except TrieErr Hash ×
    Except TrieErr (Option Bytes) × Except TrieErr Hash ×
    Except TrieErr (Option Bytes) × Except TrieErr Hash × Hash :=
  ((s.existsAccount a).1, (s.existsAndNotNull a).1,
    (s.existsAndHasCodeOrNonce a).1, (s.nonce a).1, (s.storageAt a k).1,
    (s.code a).1, (s.codeHash a).1, (s.abi a).1, (s.abiHash a).1, s.root)

/-- The relation maintained while comparing a run that started inside
one extra checkpoint with the run without it: the observable fields
agree, and the two checkpoint stacks share their top `n` frames (the
frames opened within the compared sequence). -/
def stacksRel (n : Nat) (c₁ c₂ : List Frame) : Prop :=
  ∃ P r₁ r₂, P.length = n ∧ c₁ = P ++ r₁ ∧ c₂ = P ++ r₂

/-- Full simulation relation for the discard-checkpoint equivalence. -/
def Rel (n : Nat) (s t : State) : Prop :=
  obsEq s t ∧ stacksRel n s.checkpoints t.checkpoints

/-! ### Characterisations of the engine transformers

Pure functions of the observable fields, used to factor every operation
into its effect on the cache and its effect on the top checkpoint
frame. -/

/-- Apply a function to the head of a list of frames, if any. -/
def headMap (g : Frame → Frame) : List Frame → List Frame
  | [] => []
  | f :: r => g f :: r

/-- The value component of `ensure_cached` as a function of the
observable fields. -/
def ecVal (cache : List (Address × AccountEntry)) (db : Backend)
    (root : Hash) (q : RequireCache) (a : Address) :
    Except TrieErr (Option Account) :=
  match alookup cache a with
  | some e =>
    match e.account with
    | some acct => Except.ok (some (State.updateAccountCache q db acct))
    | none => Except.ok none
  | none =>
    match db.topTrie root a with
    | none => Except.error TrieErr.trieRead
    | some none => Except.ok none
    | some (some r) =>
      Except.ok (some (State.updateAccountCache q db (Account.fromRlp r)))

/-- The cache component of `ensure_cached` as a function of the
observable fields. -/
def ecCache (cache : List (Address × AccountEntry)) (db : Backend)
    (root : Hash) (q : RequireCache) (a : Address) :
    List (Address × AccountEntry) :=
  match alookup cache a with
  | some e =>
    match e.account with
    | some acct =>
      ainsert a
        { e with account := some (State.updateAccountCache q db acct) } cache
    | none => cache
  | none =>
    match db.topTrie root a with
    | none => cache
    | some none => ainsert a (AccountEntry.newClean none) cache
    | some (some r) =>
      ainsert a
        (AccountEntry.newClean
          (some (State.updateAccountCache q db (Account.fromRlp r)))) cache

/-- The value component of `storage_at` as a function of the observable
fields. -/
def saVal (cache : List (Address × AccountEntry)) (db : Backend)
    (root : Hash) (a : Address) (k : Hash) : Except TrieErr Hash :=
  match alookup cache a with
  | some e =>
    match e.account with
    | some acct =>
      match acct.cachedStorageAt k with
      | some v => Except.ok v
      | none => Except.ok (acct.storageAt db k)
    | none => Except.ok 0
  | none =>
    match db.topTrie root a with
    | none => Except.error TrieErr.trieRead
    | some maybe =>
      Except.ok (match maybe.map Account.fromRlp with
        | some acct => acct.storageAt db k
        | none => 0)

/-- The cache component of `storage_at` as a function of the observable
fields. -/
def saCache (cache : List (Address × AccountEntry)) (db : Backend)
    (root : Hash) (a : Address) (k : Hash) :
    List (Address × AccountEntry) :=
  match alookup cache a with
  | some _ => cache
  | none =>
    match db.topTrie root a with
    | none => cache
    | some maybe =>
      ainsert a (AccountEntry.newClean (maybe.map Account.fromRlp)) cache

/-- The cache after step 1 of the require path (ensuring the address is
cached), or `none` on a trie read error. -/
def rofaCache₁ (cache : List (Address × AccountEntry)) (db : Backend)
    (root : Hash) (a : Address) : Option (List (Address × AccountEntry)) :=
  if acontains cache a then some cache
  else
    match db.topTrie root a with
    | none => none
    | some maybe =>
      some (ainsert a (AccountEntry.newClean (maybe.map Account.fromRlp)) cache)

/-- The account written back by the require path, as a function of the
entry found after step 1. -/
def rofaAcct (db : Backend) (requireCode requireAbi : Bool)
    (default : Account) (notDefault : Account → Account)
    (f : Account → Account) (entry : AccountEntry) : Account :=
  let acct₀ := match entry.account with
    | some acc => notDefault acc
    | none => default
  let acct₁ :=
    if requireCode then State.updateAccountCache RequireCache.code db acct₀
    else acct₀
  let acct₂ :=
    if requireAbi then State.updateAccountCache RequireCache.abi db acct₁
    else acct₁
  f acct₂

/-- The cache after the require path, as a function of the step-1
cache. -/
def rofaCache₂ (c₁ : List (Address × AccountEntry)) (db : Backend)
    (a : Address) (requireCode requireAbi : Bool) (default : Account)
    (notDefault : Account → Account) (f : Account → Account) :
    List (Address × AccountEntry) :=
  match alookup c₁ a with
  | none => c₁
  | some entry =>
    ainsert a
      { account := some (rofaAcct db requireCode requireAbi default
          notDefault f entry)
        state := AccountState.Dirty }
      c₁

/-- The top-frame effect of `note_cache` given the cache it reads. -/
def noteFrame (cache : List (Address × AccountEntry)) (a : Address)
    (fr : Frame) : Frame :=
  if acontains fr a then fr
  else (a, (alookup cache a).map AccountEntry.cloneDirty) :: fr

/-- The top-frame effect of `insert_cache` given the cache it reads and
the inserted entry. -/
def insertFrame (cache : List (Address × AccountEntry)) (a : Address)
    (e : AccountEntry) (fr : Frame) : Frame :=
  if e.isDirty && !(acontains fr a) then (a, alookup cache a) :: fr else fr

/-! ### Concrete instances for counterexamples and witnesses -/

/-- A concrete backend over an empty trie: every top-trie leaf is
missing, every storage cell zero, every blob absent. -/
def testBackend : Backend :=
  { topTrie := fun _ _ => some none
    storageTrie := fun _ _ => 0
    blob := fun _ => none
    commitStorageRoot := fun r _ => r
    commitTopRoot := fun r _ => r }

/-- A fresh engine over the empty backend with start nonce 0. -/
def emptyState : State :=
  { db := testBackend
    root := 0
    cache := []
    checkpoints := []
    accountStartNonce := 0 }

/-- The engine after `inc_nonce(7)` on a fresh state: address 7 holds a
dirty basic account with nonce 1. -/
def preState : State := ((emptyState.incNonce 7)).2

/-- The engine after `checkpoint(); kill_account(7);
revert_to_checkpoint()` starting from `preState`. -/
def postState : State :=
  State.revertToCheckpoint ((preState.checkpoint).killAccount 7)

/-- A state whose cache holds an explicit-absent entry at address 5 and
whose checkpoint stack holds one empty frame. -/
def absentCachedState : State :=
  { emptyState with
    cache := [(5, AccountEntry.newClean none)]
    checkpoints := [[]] }

/-! ## Lemmas: association-list maps -/

theorem alookup_nil {α β : Type} [DecidableEq α] (k : α) :
    alookup ([] : List (α × β)) k = none := rfl

theorem alookup_cons {α β : Type} [DecidableEq α] (k : α) (v : β)
    (l : List (α × β)) (j : α) :
    alookup ((k, v) :: l) j = if k = j then some v else alookup l j := by
  by_cases h : k = j
  · simp [alookup, List.find?_cons_of_pos, h]
  · simp only [alookup, if_neg h]
    rw [List.find?_cons_of_neg]
    simp [h]

theorem alookup_filter_ne {α β : Type} [DecidableEq α] (l : List (α × β))
    (k j : α) (h : j ≠ k) :
    alookup (l.filter (fun p => ¬ p.1 = k)) j = alookup l j := by
  induction l with
  | nil => rfl
  | cons p rest ih =>
    rcases p with ⟨pk, pv⟩
    by_cases hk : pk = k
    · subst hk
      rw [List.filter_cons_of_neg (by simp)]
      rw [ih, alookup_cons, if_neg (fun hh => h hh.symm)]
    · rw [List.filter_cons_of_pos (by simp [hk])]
      rw [alookup_cons, alookup_cons, ih]

theorem alookup_filter_self {α β : Type} [DecidableEq α]
    (l : List (α × β)) (k : α) :
    alookup (l.filter (fun p => ¬ p.1 = k)) k = none := by
  induction l with
  | nil => rfl
  | cons p rest ih =>
    rcases p with ⟨pk, pv⟩
    by_cases hk : pk = k
    · subst hk
      rw [List.filter_cons_of_neg (by simp)]
      exact ih
    · rw [List.filter_cons_of_pos (by simp [hk])]
      rw [alookup_cons, if_neg hk]
      exact ih

theorem alookup_ainsert {α β : Type} [DecidableEq α] (k : α) (v : β)
    (l : List (α × β)) (j : α) :
    alookup (ainsert k v l) j = if k = j then some v else alookup l j := by
  unfold ainsert
  rw [alookup_cons]
  by_cases h : k = j
  · simp [h]
  · rw [if_neg h, if_neg h, alookup_filter_ne _ _ _ (fun hh => h hh.symm)]

theorem alookup_aremove {α β : Type} [DecidableEq α] (k : α)
    (l : List (α × β)) (j : α) :
    alookup (aremove k l) j = if k = j then none else alookup l j := by
  unfold aremove
  by_cases h : k = j
  · subst h
    rw [if_pos rfl, alookup_filter_self]
  · rw [if_neg h, alookup_filter_ne _ _ _ (fun hh => h hh.symm)]

theorem alookup_orInsert_self {α β : Type} [DecidableEq α]
    (l : List (α × β)) (k : α) (v : β) :
    alookup (orInsert l k v) k = (alookup l k).orElse (fun _ => some v) := by
  unfold orInsert acontains
  rcases h : alookup l k with _ | w
  · simp [h, alookup_cons]
  · simp [h]

theorem alookup_orInsert_ne {α β : Type} [DecidableEq α]
    (l : List (α × β)) (k : α) (v : β) (j : α) (h : k ≠ j) :
    alookup (orInsert l k v) j = alookup l j := by
  unfold orInsert
  by_cases hc : acontains l k = true
  · simp [hc]
  · rw [if_neg hc, alookup_cons, if_neg h]

theorem mergeFold_lookup {α β : Type} [DecidableEq α]
    (c : List (α × β)) (p : List (α × β)) (k : α) :
    alookup (c.foldl (fun acc q => orInsert acc q.1 q.2) p) k =
      (alookup p k).orElse (fun _ => alookup c k) := by
  induction c generalizing p with
  | nil =>
    simp only [List.foldl_nil, alookup_nil]
    cases alookup p k <;> rfl
  | cons q rest ih =>
    rcases q with ⟨qk, qv⟩
    rw [List.foldl_cons, ih]
    by_cases hk : qk = k
    · subst hk
      rw [alookup_orInsert_self, alookup_cons, if_pos rfl]
      cases alookup p qk <;> rfl
    · rw [alookup_orInsert_ne _ _ _ _ hk, alookup_cons, if_neg hk]

/-! ## Lemmas: transformer characterisations -/

theorem headMap_congr (g₁ g₂ : Frame → Frame) (h : ∀ f, g₁ f = g₂ f)
    (l : List Frame) : headMap g₁ l = headMap g₂ l := by
  cases l with
  | nil => rfl
  | cons f r => simp [headMap, h]

theorem isDirty_newClean (x : Option Account) :
    (AccountEntry.newClean x).isDirty = false := rfl

theorem isDirty_newDirty (x : Option Account) :
    (AccountEntry.newDirty x).isDirty = true := rfl

theorem insertFrame_clean (cache : List (Address × AccountEntry))
    (a : Address) (x : Option Account) (fr : Frame) :
    insertFrame cache a (AccountEntry.newClean x) fr = fr := by
  simp [insertFrame, isDirty_newClean]

theorem insertCache_eq (s : State) (a : Address) (e : AccountEntry) :
    s.insertCache a e =
      { s with
        cache := ainsert a e s.cache
        checkpoints := headMap (insertFrame s.cache a e) s.checkpoints } := by
  rcases s with ⟨db, root, cache, cps, sn⟩
  cases cps with
  | nil => rfl
  | cons f rest =>
    simp only [State.insertCache, headMap, insertFrame]
    by_cases h : (e.isDirty && !(acontains f a)) = true
    · simp [h]
    · simp [h]

theorem noteCache_eq (s : State) (a : Address) :
    s.noteCache a =
      { s with checkpoints := headMap (noteFrame s.cache a) s.checkpoints } := by
  rcases s with ⟨db, root, cache, cps, sn⟩
  cases cps with
  | nil => rfl
  | cons f rest =>
    simp only [State.noteCache, headMap, noteFrame]
    by_cases h : acontains f a = true
    · simp [h]
    · simp [h]

theorem ensureCached_eq (s : State) (q : RequireCache) (a : Address) :
    s.ensureCached q a =
      (ecVal s.cache s.db s.root q a,
        { s with cache := ecCache s.cache s.db s.root q a }) := by
  unfold State.ensureCached ecVal ecCache
  rcases h : alookup s.cache a with _ | e
  · rcases ht : s.db.topTrie s.root a with _ | maybe
    · rfl
    · rcases maybe with _ | r <;>
        simp [insertCache_eq, insertFrame_clean,
          headMap_congr _ (fun f => f) (insertFrame_clean _ _ _),
          show headMap (fun f => f) s.checkpoints = s.checkpoints from
            by cases s.checkpoints <;> rfl]
  · rcases e with ⟨acc?, st⟩
    rcases acc? with _ | acct <;> rfl

theorem storageAt_eq (s : State) (a : Address) (k : Hash) :
    s.storageAt a k =
      (saVal s.cache s.db s.root a k,
        { s with cache := saCache s.cache s.db s.root a k }) := by
  unfold State.storageAt saVal saCache
  rcases h : alookup s.cache a with _ | e
  · rcases ht : s.db.topTrie s.root a with _ | maybe
    · rfl
    · simp [insertCache_eq, insertFrame_clean,
        headMap_congr _ (fun f => f) (insertFrame_clean _ _ _),
        show headMap (fun f => f) s.checkpoints = s.checkpoints from
          by cases s.checkpoints <;> rfl]
  · rcases e with ⟨acc?, st⟩
    rcases acc? with _ | acct
    · rfl
    · rcases hc : acct.cachedStorageAt k with _ | v <;> simp [hc]

theorem requireOrFromApply_eq (s : State) (a : Address)
    (rc ra : Bool) (d : Account) (nd : Account → Account)
    (f : Account → Account) :
    s.requireOrFromApply a rc ra d nd f =
      match rofaCache₁ s.cache s.db s.root a with
      | none => Except.error TrieErr.trieRead
      | some c₁ =>
        Except.ok
          { s with
            cache := rofaCache₂ c₁ s.db a rc ra d nd f
            checkpoints := headMap (noteFrame c₁ a) s.checkpoints } := by
  unfold State.requireOrFromApply rofaCache₁ rofaCache₂ rofaAcct
  by_cases h : acontains s.cache a = true
  · simp only [h, if_pos, noteCache_eq]
    rcases he : alookup s.cache a with _ | entry
    · simp [acontains, he] at h
    · simp [he]
  · simp only [h, Bool.false_eq_true, if_neg, not_false_iff]
    rcases ht : s.db.topTrie s.root a with _ | maybe
    · rfl
    · simp only [insertCache_eq, insertFrame_clean, noteCache_eq,
        headMap_congr _ (fun fr => fr) (insertFrame_clean _ _ _),
        show headMap (fun fr => fr) s.checkpoints = s.checkpoints from
          by cases s.checkpoints <;> rfl]
      rcases he : alookup (ainsert a
          (AccountEntry.newClean (maybe.map Account.fromRlp)) s.cache) a
        with _ | entry
      · simp [alookup_ainsert] at he
      · simp [he]

/-! ## Lemmas: the simulation relation -/

theorem obsEq_refl (s : State) : obsEq s s := ⟨rfl, rfl, rfl, rfl⟩

theorem obsEq_trans {s t u : State} (h₁ : obsEq s t) (h₂ : obsEq t u) :
    obsEq s u :=
  ⟨h₁.1.trans h₂.1, h₁.2.1.trans h₂.2.1, h₁.2.2.1.trans h₂.2.2.1,
    h₁.2.2.2.trans h₂.2.2.2⟩

theorem stacksRel_zero (c₁ c₂ : List Frame) : stacksRel 0 c₁ c₂ :=
  ⟨[], c₁, c₂, rfl, rfl, rfl⟩

theorem rel_ofPartsId {n : Nat} {s t s' t' : State} (h : Rel n s t)
    (hc : s'.cache = t'.cache) (hdb : s'.db = t'.db)
    (hr : s'.root = t'.root)
    (hsn : s'.accountStartNonce = t'.accountStartNonce)
    (hs : s'.checkpoints = s.checkpoints)
    (ht : t'.checkpoints = t.checkpoints) : Rel n s' t' := by
  obtain ⟨_, P, r₁, r₂, hP, h1, h2⟩ := h
  exact ⟨⟨hc, hdb, hr, hsn⟩, P, r₁, r₂, hP, by rw [hs, h1], by rw [ht, h2]⟩

theorem rel_ofParts {n : Nat} {s t s' t' : State} (h : Rel n s t)
    (g : Frame → Frame)
    (hc : s'.cache = t'.cache) (hdb : s'.db = t'.db)
    (hr : s'.root = t'.root)
    (hsn : s'.accountStartNonce = t'.accountStartNonce)
    (hs : s'.checkpoints = headMap g s.checkpoints)
    (ht : t'.checkpoints = headMap g t.checkpoints) : Rel n s' t' := by
  obtain ⟨_, P, r₁, r₂, hP, h1, h2⟩ := h
  refine ⟨⟨hc, hdb, hr, hsn⟩, ?_⟩
  cases P with
  | nil =>
    cases hP
    exact stacksRel_zero _ _
  | cons p P₂ =>
    refine ⟨g p :: P₂, r₁, r₂, by simpa using hP, ?_, ?_⟩
    · rw [hs, h1]; rfl
    · rw [ht, h2]; rfl

theorem rel_checkpoint {n : Nat} {s t : State} (h : Rel n s t) :
    Rel (n + 1) s.checkpoint t.checkpoint := by
  obtain ⟨ho, P, r₁, r₂, hP, h1, h2⟩ := h
  exact ⟨ho, [] :: P, r₁, r₂, by simp [hP],
    by simp [State.checkpoint, h1], by simp [State.checkpoint, h2]⟩

theorem revert_eq_of_cons {s : State} {c : Frame} {rest : List Frame}
    (h : s.checkpoints = c :: rest) :
    s.revertToCheckpoint =
      { s with
        checkpoints := rest
        cache := c.foldl (fun cc p => State.revertEntry cc p.1 p.2) s.cache } := by
  unfold State.revertToCheckpoint
  rw [h]

theorem discard_eq_of_cons₂ {s : State} {c p : Frame} {rest : List Frame}
    (h : s.checkpoints = c :: p :: rest) :
    s.discardCheckpoint =
      { s with
        checkpoints :=
          (if p.isEmpty then c
            else c.foldl (fun acc q => orInsert acc q.1 q.2) p) :: rest } := by
  unfold State.discardCheckpoint
  rw [h]
  by_cases hp : p.isEmpty <;> simp [hp]

theorem discard_obs (s : State) : obsEq s.discardCheckpoint s := by
  unfold State.discardCheckpoint
  rcases s.checkpoints with _ | ⟨c, _ | ⟨p, rest⟩⟩
  · exact obsEq_refl s
  · exact ⟨rfl, rfl, rfl, rfl⟩
  · by_cases hp : p.isEmpty <;> simp [hp] <;> exact ⟨rfl, rfl, rfl, rfl⟩

theorem rel_revert {n : Nat} {s t : State} (h : Rel (n + 1) s t) :
    Rel n s.revertToCheckpoint t.revertToCheckpoint := by
  obtain ⟨⟨hc, hdb, hr, hsn⟩, P, r₁, r₂, hP, h1, h2⟩ := h
  cases P with
  | nil => simp at hP
  | cons p P₂ =>
    rw [List.cons_append] at h1 h2
    rw [revert_eq_of_cons h1, revert_eq_of_cons h2]
    refine ⟨⟨by simp [hc], by simp [hdb], by simp [hr], by simp [hsn]⟩,
      P₂, r₁, r₂, by simpa using hP, rfl, rfl⟩

theorem rel_discard {n : Nat} {s t : State} (h : Rel (n + 1) s t) :
    Rel n s.discardCheckpoint t.discardCheckpoint := by
  have hobs : obsEq s.discardCheckpoint t.discardCheckpoint :=
    obsEq_trans (discard_obs s) (obsEq_trans h.1 (by
      have := discard_obs t
      exact ⟨this.1.symm, this.2.1.symm, this.2.2.1.symm, this.2.2.2.symm⟩))
  obtain ⟨_, P, r₁, r₂, hP, h1, h2⟩ := h
  cases P with
  | nil => simp at hP
  | cons p P₂ =>
    cases P₂ with
    | nil =>
      have hn : n = 0 := by simpa using hP.symm
      subst hn
      exact ⟨hobs, stacksRel_zero _ _⟩
    | cons p₂ P₃ =>
      refine ⟨hobs, ?_⟩
      rw [List.cons_append, List.cons_append] at h1 h2
      rw [discard_eq_of_cons₂ h1, discard_eq_of_cons₂ h2]
      refine ⟨_ :: P₃, r₁, r₂, by simpa using hP, rfl, rfl⟩

/-! ## Lemmas: operation preservation of the simulation relation -/

theorem rel_insertCache {n : Nat} {s t : State} (h : Rel n s t)
    (a : Address) (e : AccountEntry) :
    Rel n (s.insertCache a e) (t.insertCache a e) := by
  obtain ⟨⟨hc, hdb, hr, hsn⟩, hst⟩ := h
  rw [insertCache_eq, insertCache_eq]
  exact rel_ofParts ⟨⟨hc, hdb, hr, hsn⟩, hst⟩ (insertFrame s.cache a e)
    (by simp [hc]) (by simp [hdb]) (by simp [hr]) (by simp [hsn])
    rfl (by rw [hc])

theorem rel_ensureCachedSnd {n : Nat} {s t : State} (h : Rel n s t)
    (q : RequireCache) (a : Address) :
    Rel n (s.ensureCached q a).2 (t.ensureCached q a).2 := by
  obtain ⟨⟨hc, hdb, hr, hsn⟩, hst⟩ := h
  rw [ensureCached_eq, ensureCached_eq]
  exact rel_ofPartsId ⟨⟨hc, hdb, hr, hsn⟩, hst⟩
    (by simp [hc, hdb, hr]) (by simp [hdb]) (by simp [hr]) (by simp [hsn])
    rfl rfl

theorem rel_storageAtSnd {n : Nat} {s t : State} (h : Rel n s t)
    (a : Address) (k : Hash) :
    Rel n (s.storageAt a k).2 (t.storageAt a k).2 := by
  obtain ⟨⟨hc, hdb, hr, hsn⟩, hst⟩ := h
  rw [storageAt_eq, storageAt_eq]
  exact rel_ofPartsId ⟨⟨hc, hdb, hr, hsn⟩, hst⟩
    (by simp [hc, hdb, hr]) (by simp [hdb]) (by simp [hr]) (by simp [hsn])
    rfl rfl

theorem rel_rofaState {n : Nat} {s t : State} (h : Rel n s t)
    (a : Address) (rc ra : Bool) (d : Account)
    (nd f : Account → Account) :
    Rel n
      (match s.requireOrFromApply a rc ra d nd f with
        | Except.ok s₁ => s₁
        | Except.error _ => s)
      (match t.requireOrFromApply a rc ra d nd f with
        | Except.ok t₁ => t₁
        | Except.error _ => t) := by
  obtain ⟨⟨hc, hdb, hr, hsn⟩, hst⟩ := h
  rw [requireOrFromApply_eq, requireOrFromApply_eq, hc, hdb, hr]
  cases hcc : rofaCache₁ t.cache t.db t.root a with
  | none => exact ⟨⟨hc, hdb, hr, hsn⟩, hst⟩
  | some c₁ =>
    exact rel_ofParts ⟨⟨hc, hdb, hr, hsn⟩, hst⟩ (noteFrame c₁ a)
      (by simp [hdb]) (by simp [hdb]) (by simp [hr]) (by simp [hsn])
      rfl rfl

theorem incNonce_snd (s : State) (a : Address) :
    (s.incNonce a).2 =
      match s.requireOrFromApply a false false
          (Account.newBasic s.accountStartNonce) id Account.incNonce with
      | Except.ok s₁ => s₁
      | Except.error _ => s := by
  unfold State.incNonce
  cases s.requireOrFromApply a false false
    (Account.newBasic s.accountStartNonce) id Account.incNonce <;> rfl

theorem initCode_snd (s : State) (a : Address) (c : Bytes) :
    (s.initCode a c).2 =
      match s.requireOrFromApply a true false
          (Account.newContract s.accountStartNonce) id (Account.initCode c) with
      | Except.ok s₁ => s₁
      | Except.error _ => s := by
  unfold State.initCode
  cases s.requireOrFromApply a true false
    (Account.newContract s.accountStartNonce) id (Account.initCode c) <;> rfl

theorem resetCode_snd (s : State) (a : Address) (c : Bytes) :
    (s.resetCode a c).2 =
      match s.requireOrFromApply a true false
          (Account.newContract s.accountStartNonce) id
          (Account.resetCode c) with
      | Except.ok s₁ => s₁
      | Except.error _ => s := by
  unfold State.resetCode
  cases s.requireOrFromApply a true false
    (Account.newContract s.accountStartNonce) id (Account.resetCode c) <;> rfl

theorem initAbi_snd (s : State) (a : Address) (c : Bytes) :
    (s.initAbi a c).2 =
      match s.requireOrFromApply a false true
          (Account.newContract s.accountStartNonce) id (Account.initAbi c) with
      | Except.ok s₁ => s₁
      | Except.error _ => s := by
  unfold State.initAbi
  cases s.requireOrFromApply a false true
    (Account.newContract s.accountStartNonce) id (Account.initAbi c) <;> rfl

theorem resetAbi_snd (s : State) (a : Address) (c : Bytes) :
    (s.resetAbi a c).2 =
      match s.requireOrFromApply a false true
          (Account.newContract s.accountStartNonce) id
          (Account.resetAbi c) with
      | Except.ok s₁ => s₁
      | Except.error _ => s := by
  unfold State.resetAbi
  cases s.requireOrFromApply a false true
    (Account.newContract s.accountStartNonce) id (Account.resetAbi c) <;> rfl

theorem rel_incNonce {n : Nat} {s t : State} (h : Rel n s t) (a : Address) :
    Rel n (s.incNonce a).2 (t.incNonce a).2 := by
  have hsn := h.1.2.2.2
  rw [incNonce_snd, incNonce_snd, hsn]
  exact rel_rofaState h a false false _ id Account.incNonce

theorem rel_initCode {n : Nat} {s t : State} (h : Rel n s t)
    (a : Address) (c : Bytes) :
    Rel n (s.initCode a c).2 (t.initCode a c).2 := by
  have hsn := h.1.2.2.2
  rw [initCode_snd, initCode_snd, hsn]
  exact rel_rofaState h a true false _ id (Account.initCode c)

theorem rel_resetCode {n : Nat} {s t : State} (h : Rel n s t)
    (a : Address) (c : Bytes) :
    Rel n (s.resetCode a c).2 (t.resetCode a c).2 := by
  have hsn := h.1.2.2.2
  rw [resetCode_snd, resetCode_snd, hsn]
  exact rel_rofaState h a true false _ id (Account.resetCode c)

theorem rel_initAbi {n : Nat} {s t : State} (h : Rel n s t)
    (a : Address) (c : Bytes) :
    Rel n (s.initAbi a c).2 (t.initAbi a c).2 := by
  have hsn := h.1.2.2.2
  rw [initAbi_snd, initAbi_snd, hsn]
  exact rel_rofaState h a false true _ id (Account.initAbi c)

theorem rel_resetAbi {n : Nat} {s t : State} (h : Rel n s t)
    (a : Address) (c : Bytes) :
    Rel n (s.resetAbi a c).2 (t.resetAbi a c).2 := by
  have hsn := h.1.2.2.2
  rw [resetAbi_snd, resetAbi_snd, hsn]
  exact rel_rofaState h a false true _ id (Account.resetAbi c)

theorem setStorage_snd (s : State) (a : Address) (k v : Hash) :
    (s.setStorage a k v).2 =
      match (s.storageAt a k).1 with
      | Except.error _ => (s.storageAt a k).2
      | Except.ok cur =>
        if cur = v then (s.storageAt a k).2
        else
          match (s.storageAt a k).2.requireOrFromApply a false false
              (Account.newBasic (s.storageAt a k).2.accountStartNonce) id
              (Account.setStorage k v) with
          | Except.ok s₂ => s₂
          | Except.error _ => (s.storageAt a k).2 := by
  unfold State.setStorage
  rcases hsa : s.storageAt a k with ⟨r, s₁⟩
  rcases r with e | cur
  · rfl
  · by_cases hv : cur = v
    · simp [hv]
    · simp only [hv, if_neg, if_false]
      cases s₁.requireOrFromApply a false false
        (Account.newBasic s₁.accountStartNonce) id
        (Account.setStorage k v) <;> rfl

theorem rel_setStorage {n : Nat} {s t : State} (h : Rel n s t)
    (a : Address) (k v : Hash) :
    Rel n (s.setStorage a k v).2 (t.setStorage a k v).2 := by
  obtain ⟨⟨hc, hdb, hr, hsn⟩, hst⟩ := h
  have h₁ : Rel n (s.storageAt a k).2 (t.storageAt a k).2 :=
    rel_storageAtSnd ⟨⟨hc, hdb, hr, hsn⟩, hst⟩ a k
  have hval : (s.storageAt a k).1 = (t.storageAt a k).1 := by
    rw [storageAt_eq, storageAt_eq]
    simp [hc, hdb, hr]
  have hsn₁ : (s.storageAt a k).2.accountStartNonce =
      (t.storageAt a k).2.accountStartNonce := h₁.1.2.2.2
  rw [setStorage_snd, setStorage_snd, hval, hsn₁]
  cases (t.storageAt a k).1 with
  | error e => exact h₁
  | ok cur =>
    by_cases hv : cur = v
    · simp only [hv, if_pos]
      exact h₁
    · simp only [hv, if_neg, if_false]
      exact rel_rofaState h₁ a false false _ id (Account.setStorage k v)

theorem rel_newContract {n : Nat} {s t : State} (h : Rel n s t)
    (a : Address) (off : Nat) :
    Rel n (s.newContract a off) (t.newContract a off) := by
  have hsn := h.1.2.2.2
  unfold State.newContract
  rw [hsn]
  exact rel_insertCache h a _

theorem rel_killAccount {n : Nat} {s t : State} (h : Rel n s t)
    (a : Address) :
    Rel n (s.killAccount a) (t.killAccount a) := by
  unfold State.killAccount
  exact rel_insertCache h a _

theorem rel_stepOp {n : Nat} {s t : State} (h : Rel n s t) (op : Op)
    (hcp : op ≠ Op.checkpoint) (hdc : op ≠ Op.discard)
    (hrv : op ≠ Op.revert) :
    Rel n (stepOp s op) (stepOp t op) := by
  cases op with
  | incNonce a => exact rel_incNonce h a
  | setStorage a k v => exact rel_setStorage h a k v
  | newContract a off => exact rel_newContract h a off
  | killAccount a => exact rel_killAccount h a
  | initCode a c => exact rel_initCode h a c
  | resetCode a c => exact rel_resetCode h a c
  | initAbi a c => exact rel_initAbi h a c
  | resetAbi a c => exact rel_resetAbi h a c
  | readExists a => exact rel_ensureCachedSnd h _ a
  | readExistsAndNotNull a => exact rel_ensureCachedSnd h _ a
  | readExistsAndHasCodeOrNonce a => exact rel_ensureCachedSnd h _ a
  | readNonce a => exact rel_ensureCachedSnd h _ a
  | readStorageRoot a => exact rel_ensureCachedSnd h _ a
  | readStorageAt a k => exact rel_storageAtSnd h a k
  | readCode a => exact rel_ensureCachedSnd h _ a
  | readCodeHash a => exact rel_ensureCachedSnd h _ a
  | readCodeSize a => exact rel_ensureCachedSnd h _ a
  | readAbi a => exact rel_ensureCachedSnd h _ a
  | readAbiHash a => exact rel_ensureCachedSnd h _ a
  | readAbiSize a => exact rel_ensureCachedSnd h _ a
  | checkpoint => exact absurd rfl hcp
  | discard => exact absurd rfl hdc
  | revert => exact absurd rfl hrv

theorem runOps_rel :
    ∀ (ops : List Op) (n : Nat) (s t : State), Rel n s t →
      balancedFrom ops n = true → Rel 0 (runOps s ops) (runOps t ops) := by
  intro ops
  induction ops with
  | nil =>
    intro n s t h hb
    have : n = 0 := by simpa [balancedFrom] using hb
    subst this
    exact h
  | cons op rest ih =>
    intro n s t h hb
    cases op with
    | checkpoint =>
      exact ih (n + 1) _ _ (rel_checkpoint h)
        (by simpa [balancedFrom] using hb)
    | discard =>
      have hb₂ : (decide (0 < n) && balancedFrom rest (n - 1)) = true := by
        simpa [balancedFrom] using hb
      obtain ⟨h0, hrest⟩ := Bool.and_eq_true_iff.mp hb₂
      have hn : 0 < n := of_decide_eq_true h0
      obtain ⟨m, rfl⟩ : ∃ m, n = m + 1 :=
        ⟨n - 1, (Nat.succ_pred_eq_of_pos hn).symm⟩
      exact ih m _ _ (rel_discard h) (by simpa using hrest)
    | revert =>
      have hb₂ : (decide (0 < n) && balancedFrom rest (n - 1)) = true := by
        simpa [balancedFrom] using hb
      obtain ⟨h0, hrest⟩ := Bool.and_eq_true_iff.mp hb₂
      have hn : 0 < n := of_decide_eq_true h0
      obtain ⟨m, rfl⟩ : ∃ m, n = m + 1 :=
        ⟨n - 1, (Nat.succ_pred_eq_of_pos hn).symm⟩
      exact ih m _ _ (rel_revert h) (by simpa using hrest)
    | incNonce a =>
      exact ih n _ _ (rel_stepOp h _ (by simp) (by simp) (by simp)) hb
    | setStorage a k v =>
      exact ih n _ _ (rel_stepOp h _ (by simp) (by simp) (by simp)) hb
    | newContract a off =>
      exact ih n _ _ (rel_stepOp h _ (by simp) (by simp) (by simp)) hb
    | killAccount a =>
      exact ih n _ _ (rel_stepOp h _ (by simp) (by simp) (by simp)) hb
    | initCode a c =>
      exact ih n _ _ (rel_stepOp h _ (by simp) (by simp) (by simp)) hb
    | resetCode a c =>
      exact ih n _ _ (rel_stepOp h _ (by simp) (by simp) (by simp)) hb
    | initAbi a c =>
      exact ih n _ _ (rel_stepOp h _ (by simp) (by simp) (by simp)) hb
    | resetAbi a c =>
      exact ih n _ _ (rel_stepOp h _ (by simp) (by simp) (by simp)) hb
    | readExists a =>
      exact ih n _ _ (rel_stepOp h _ (by simp) (by simp) (by simp)) hb
    | readExistsAndNotNull a =>
      exact ih n _ _ (rel_stepOp h _ (by simp) (by simp) (by simp)) hb
    | readExistsAndHasCodeOrNonce a =>
      exact ih n _ _ (rel_stepOp h _ (by simp) (by simp) (by simp)) hb
    | readNonce a =>
      exact ih n _ _ (rel_stepOp h _ (by simp) (by simp) (by simp)) hb
    | readStorageRoot a =>
      exact ih n _ _ (rel_stepOp h _ (by simp) (by simp) (by simp)) hb
    | readStorageAt a k =>
      exact ih n _ _ (rel_stepOp h _ (by simp) (by simp) (by simp)) hb
    | readCode a =>
      exact ih n _ _ (rel_stepOp h _ (by simp) (by simp) (by simp)) hb
    | readCodeHash a =>
      exact ih n _ _ (rel_stepOp h _ (by simp) (by simp) (by simp)) hb
    | readCodeSize a =>
      exact ih n _ _ (rel_stepOp h _ (by simp) (by simp) (by simp)) hb
    | readAbi a =>
      exact ih n _ _ (rel_stepOp h _ (by simp) (by simp) (by simp)) hb
    | readAbiHash a =>
      exact ih n _ _ (rel_stepOp h _ (by simp) (by simp) (by simp)) hb
    | readAbiSize a =>
      exact ih n _ _ (rel_stepOp h _ (by simp) (by simp) (by simp)) hb

/-! ## Lemmas: the read surface only sees the observable fields -/

theorem readSurface_eq (s : State) (a : Address) (k : Hash) :
    readSurface s a k =
      ((s.ensureCached RequireCache.noReq a).1.map Option.isSome,
        (s.ensureCached RequireCache.noReq a).1.map (fun acc? =>
          acc?.elim false (fun acc => !(acc.isNull s.accountStartNonce))),
        (s.ensureCached RequireCache.codeSize a).1.map (fun acc? =>
          acc?.elim false (fun acc =>
            acc.codeHashV != HASH_EMPTY ||
              acc.nonce != s.accountStartNonce)),
        (s.ensureCached RequireCache.noReq a).1.map (fun acc? =>
          acc?.elim s.accountStartNonce Account.nonce),
        (s.storageAt a k).1,
        (s.ensureCached RequireCache.code a).1.map (fun acc? =>
          acc?.elim none Account.codeBlob),
        (s.ensureCached RequireCache.noReq a).1.map (fun acc? =>
          acc?.elim HASH_EMPTY Account.codeHashV),
        (s.ensureCached RequireCache.abi a).1.map (fun acc? =>
          acc?.elim none Account.abiBlob),
        (s.ensureCached RequireCache.noReq a).1.map (fun acc? =>
          acc?.elim HASH_EMPTY Account.abiHashV),
        s.root) := rfl

theorem readSurface_obs {s t : State} (h : obsEq s t) (a : Address)
    (k : Hash) : readSurface s a k = readSurface t a k := by
  obtain ⟨hc, hdb, hr, hsn⟩ := h
  have e1 : ∀ q, (s.ensureCached q a).1 = (t.ensureCached q a).1 := by
    intro q
    rw [ensureCached_eq, ensureCached_eq]
    simp only [hc, hdb, hr]
  have e2 : (s.storageAt a k).1 = (t.storageAt a k).1 := by
    rw [storageAt_eq, storageAt_eq]
    simp only [hc, hdb, hr]
  rw [readSurface_eq, readSurface_eq]
  simp only [e1, e2, hr, hsn]

/-! ## Claim theorems -/

/-- C4: for every engine with at least one active checkpoint frame and
every finite sequence `S` of engine operations with balanced nested
checkpoints (the operation type contains no `commit`), running
`checkpoint(); S; discard_checkpoint()` is observably equivalent on the
read surface to running `S` alone; and `discard_checkpoint` pops the top
frame and moves each saved slot into the parent frame only when the
parent does not already hold that address, so the parent's earlier view
wins. -/
theorem claim_c4_discard_equiv (s₀ : State) (S : List Op)
    (hne : s₀.checkpoints ≠ []) (hbal : balanced S = true) :
    (∀ (a : Address) (k : Hash),
      readSurface (State.discardCheckpoint (runOps s₀.checkpoint S)) a k =
        readSurface (runOps s₀ S) a k) ∧
    (∀ (st : State) (c p : Frame) (rest : List Frame),
      st.checkpoints = c :: p :: rest →
      ∃ merged, st.discardCheckpoint.checkpoints = merged :: rest ∧
        ∀ j, alookup merged j =
          (alookup p j).orElse (fun _ => alookup c j)) := by
  constructor
  · intro a k
    have h0 : Rel 0 s₀.checkpoint s₀ :=
      ⟨⟨rfl, rfl, rfl, rfl⟩,
        ⟨[], [] :: s₀.checkpoints, s₀.checkpoints, rfl, rfl, rfl⟩⟩
    have h1 : Rel 0 (runOps s₀.checkpoint S) (runOps s₀ S) :=
      runOps_rel S 0 _ _ h0 hbal
    exact readSurface_obs (obsEq_trans (discard_obs _) h1.1) a k
  · intro st c p rest hst
    rw [discard_eq_of_cons₂ hst]
    refine ⟨_, rfl, ?_⟩
    intro j
    by_cases hp : p.isEmpty
    · have hpnil : p = [] := List.isEmpty_iff.mp hp
      subst hpnil
      simp only [hp, if_pos]
      rfl
    · simp only [hp, if_neg, if_false]
      exact mergeFold_lookup c p j

/-- Witness for C4 at a concrete engine (one active frame, one cached
absent entry) and the one-operation sequence `[inc_nonce 5]`. -/
theorem claim_c4_discard_equiv_witness :
    (∀ (a : Address) (k : Hash),
      readSurface
        (State.discardCheckpoint
          (runOps absentCachedState.checkpoint [Op.incNonce 5])) a k =
        readSurface (runOps absentCachedState [Op.incNonce 5]) a k) ∧
    (∀ (st : State) (c p : Frame) (rest : List Frame),
      st.checkpoints = c :: p :: rest →
      ∃ merged, st.discardCheckpoint.checkpoints = merged :: rest ∧
        ∀ j, alookup merged j =
          (alookup p j).orElse (fun _ => alookup c j)) :=
  claim_c4_discard_equiv absentCachedState [Op.incNonce 5]
    (by simp [absentCachedState, emptyState]) rfl

theorem headMap_id (l : List Frame) : headMap (fun f => f) l = l := by
  cases l <;> rfl

theorem insertCache_clean (s : State) (a : Address) (x : Option Account) :
    s.insertCache a (AccountEntry.newClean x) =
      { s with cache := ainsert a (AccountEntry.newClean x) s.cache } := by
  rw [insertCache_eq,
    headMap_congr _ (fun f => f) (insertFrame_clean s.cache a x),
    headMap_id]

/-- C1 (refuted by the code): on a fresh engine, after `inc_nonce(7)`
the nonce of 7 reads 1, but running `checkpoint(); kill_account(7);
revert_to_checkpoint()` leaves the nonce reading 0 — the revert fails to
restore the account because `AccountEntry::overwrite_with` drops a
present account when the receiver holds none, so the read surface is not
restored to its pre-checkpoint value. -/
theorem claim_c1_revert_not_rollback :
    (preState.nonce 7).1 = Except.ok 1 ∧
    ((State.revertToCheckpoint
        (runOps preState.checkpoint [Op.killAccount 7])).nonce 7).1 =
      Except.ok 0 ∧
    ((State.revertToCheckpoint
        (runOps preState.checkpoint [Op.killAccount 7])).nonce 7).1 ≠
      (preState.nonce 7).1 := by
  refine ⟨rfl, rfl, ?_⟩
  show (Except.ok (0 : Nat) : Except TrieErr Nat) ≠ Except.ok 1
  simp

/-- C2 (refuted by the code): `AccountEntry::overwrite_with` applied to
a receiver holding no account and an argument holding a present account
takes the argument's tag but leaves the receiver with no account — the
argument's account record is dropped instead of installed. -/
theorem claim_c2_overwrite_drops_account :
    (AccountEntry.overwriteWith
        { account := none, state := AccountState.Dirty }
        { account := some (Account.newBasic 5)
          state := AccountState.CleanFresh }).account = none ∧
    (AccountEntry.overwriteWith
        { account := none, state := AccountState.Dirty }
        { account := some (Account.newBasic 5)
          state := AccountState.CleanFresh }).state =
      AccountState.CleanFresh := ⟨rfl, rfl⟩

/-- C6 counterexample: on a concrete engine with an empty checkpoint
stack, `revert_to_checkpoint` and `discard_checkpoint` return normally
with the engine unchanged — no precondition failure occurs (the source
pops with an `if let` that silently does nothing on an empty stack,
unlike `commit`, whose assertion is modelled as an error value). -/
theorem claim_c6_counterexample :
    State.revertToCheckpoint emptyState = emptyState ∧
    State.discardCheckpoint emptyState = emptyState := ⟨rfl, rfl⟩

/-- C6 (amended): calling `revert_to_checkpoint` or
`discard_checkpoint` with an empty checkpoint stack is a silent no-op:
the engine is returned unchanged and no failure of any kind is raised
(only `commit` enforces a checkpoint-stack precondition). -/
theorem claim_c6_empty_stack_noop (s : State) (h : s.checkpoints = []) :
    s.revertToCheckpoint = s ∧ s.discardCheckpoint = s := by
  constructor
  · unfold State.revertToCheckpoint
    rw [h]
  · unfold State.discardCheckpoint
    rw [h]

/-- Witness for the amended C6 at a concrete engine (the state reached
by `inc_nonce(7)` from fresh, whose checkpoint stack is empty). -/
theorem claim_c6_empty_stack_noop_witness :
    State.revertToCheckpoint preState = preState ∧
    State.discardCheckpoint preState = preState :=
  claim_c6_empty_stack_noop preState rfl

/-- C10: `storage_at` on an absent account returns the all-zero hash
rather than an error, for every key: a cached explicit-absent entry
answers zero with the engine untouched; an uncached address whose
top-trie leaf is missing answers zero and installs a `CleanFresh` entry
recording the absence. -/
theorem claim_c10_storage_absent (s : State) (a : Address) (k : Hash) :
    (∀ e, alookup s.cache a = some e → e.account = none →
      s.storageAt a k = (Except.ok 0, s)) ∧
    (alookup s.cache a = none → s.db.topTrie s.root a = some none →
      s.storageAt a k =
        (Except.ok 0,
          { s with
            cache := ainsert a (AccountEntry.newClean none) s.cache })) := by
  constructor
  · intro e he hacc
    unfold State.storageAt
    simp only [he, hacc]
  · intro he ht
    unfold State.storageAt
    simp only [he, ht, Option.map_none']
    rw [insertCache_clean]

/-- Witness for C10: the cached-absent case on `absentCachedState` and
the uncached-missing case on a fresh engine. -/
theorem claim_c10_storage_absent_witness :
    absentCachedState.storageAt 5 4 = (Except.ok 0, absentCachedState) ∧
    emptyState.storageAt 9 3 =
      (Except.ok 0,
        { emptyState with
          cache := ainsert 9 (AccountEntry.newClean none) emptyState.cache }) :=
  ⟨(claim_c10_storage_absent absentCachedState 5 4).1
      (AccountEntry.newClean none) rfl rfl,
    (claim_c10_storage_absent emptyState 9 3).2 rfl rfl⟩

/-- C3 counterexample: on a concrete engine whose cache holds an
explicit-absent entry at address 5 and whose top frame is empty, the
require path (here through `inc_nonce`) records the undo slot
`some (clone of the absent entry)` — not the sentinel "absent" that the
claim prescribes whenever the entry holds no account. -/
theorem claim_c3_counterexample :
    ((absentCachedState.incNonce 5).2).checkpoints.headD [] =
      [(5, some (AccountEntry.newClean none))] ∧
    alookup (((absentCachedState.incNonce 5).2).checkpoints.headD []) 5 ≠
      some none := by
  refine ⟨rfl, ?_⟩
  show some (some (AccountEntry.newClean none)) ≠ some none
  simp

/-- C3 (amended): in the require path with an active top frame not yet
holding the address, the undo slot records the dirty-clone of the cache
entry as it is before the tag is set Dirty, including its prior tag;
since the path has just ensured a cache entry exists, the slot is never
the absent sentinel — when the entry holds no account the slot holds a
clone carrying the absent account marker (which revert then restores in
place rather than deleting the entry). -/
theorem claim_c3_note_slot (s : State) (a : Address) (f : Frame)
    (rest : List Frame) (e : AccountEntry)
    (hcp : s.checkpoints = f :: rest) (hf : acontains f a = false)
    (he : alookup s.cache a = some e)
    (rc ra : Bool) (d : Account) (nd g : Account → Account) :
    ∃ s₁, s.requireOrFromApply a rc ra d nd g = Except.ok s₁ ∧
      s₁.checkpoints = ((a, some e.cloneDirty) :: f) :: rest := by
  rw [requireOrFromApply_eq]
  have hc : acontains s.cache a = true := by simp [acontains, he]
  simp only [rofaCache₁, hc, if_pos]
  refine ⟨_, rfl, ?_⟩
  rw [hcp]
  simp [headMap, noteFrame, hf, he]

/-- Witness for the amended C3 on `absentCachedState` (entry holding no
account, empty active frame): the recorded slot is the clone of the
absent entry, with its `CleanFresh` tag. -/
theorem claim_c3_note_slot_witness :
    ∃ s₁, absentCachedState.requireOrFromApply 5 false false
        (Account.newBasic 0) id Account.incNonce = Except.ok s₁ ∧
      s₁.checkpoints =
        [[(5, some (AccountEntry.newClean none).cloneDirty)]] :=
  claim_c3_note_slot absentCachedState 5 [] [] (AccountEntry.newClean none)
    rfl rfl rfl false false (Account.newBasic 0) id Account.incNonce

/-- C5: `commit` with a non-empty checkpoint stack hits the fatal
checkpoint-stack assertion — modelled as the distinguished error value,
returned before any trie access; with an empty stack the assertion never
fires and commit proceeds to flush the dirty entries: every dirty
entry's account passes through its per-account commit and its tag
becomes `Committed`, while non-dirty entries are untouched. -/
theorem claim_c5_commit_assertion (s : State) :
    (s.checkpoints ≠ [] →
      s.commit = Except.error CommitErr.checkpointAssertion) ∧
    (s.checkpoints = [] →
      ∃ s₁, s.commit = Except.ok s₁ ∧
        ∀ p, p ∈ s.cache →
          (p.2.isDirty = true →
            (p.1,
              ({ account := p.2.account.map (Account.commitAccount s.db)
                 state := AccountState.Committed } : AccountEntry)) ∈
              s₁.cache) ∧
          (p.2.isDirty = false → p ∈ s₁.cache)) := by
  constructor
  · intro h
    unfold State.commit
    rw [if_neg (by simpa [List.isEmpty_iff] using h)]
  · intro h
    unfold State.commit
    rw [if_pos (by simp [h])]
    refine ⟨_, rfl, ?_⟩
    intro p hp
    constructor
    · intro hd
      have hmem := List.mem_map_of_mem
        (fun q : Address × AccountEntry =>
          if q.2.isDirty then
            (q.1,
              ({ account := q.2.account.map (Account.commitAccount s.db)
                 state := AccountState.Committed } : AccountEntry))
          else q) hp
      simpa [State.commitInto, hd] using hmem
    · intro hd
      have hmem := List.mem_map_of_mem
        (fun q : Address × AccountEntry =>
          if q.2.isDirty then
            (q.1,
              ({ account := q.2.account.map (Account.commitAccount s.db)
                 state := AccountState.Committed } : AccountEntry))
          else q) hp
      simpa [State.commitInto, hd] using hmem

/-- Witness for C5: the assertion fires on a concrete engine with one
open frame, and commit succeeds on a fresh engine with an empty
stack. -/
theorem claim_c5_commit_assertion_witness :
    absentCachedState.commit =
      Except.error CommitErr.checkpointAssertion ∧
    (∃ s₁, emptyState.commit = Except.ok s₁ ∧
      ∀ p, p ∈ emptyState.cache →
        (p.2.isDirty = true →
          (p.1,
            ({ account := p.2.account.map
                 (Account.commitAccount emptyState.db)
               state := AccountState.Committed } : AccountEntry)) ∈
            s₁.cache) ∧
        (p.2.isDirty = false → p ∈ s₁.cache)) :=
  ⟨(claim_c5_commit_assertion absentCachedState).1 (by simp [absentCachedState, emptyState]),
    (claim_c5_commit_assertion emptyState).2 rfl⟩

theorem alookup_eq_none_of_not_mem_keys {α β : Type} [DecidableEq α]
    (l : List (α × β)) (a : α) (h : a ∉ l.map Prod.fst) :
    alookup l a = none := by
  induction l with
  | nil => rfl
  | cons p rest ih =>
    rcases p with ⟨pk, pv⟩
    simp only [List.map_cons, List.mem_cons] at h
    push_neg at h
    rw [alookup_cons, if_neg (fun hh => h.1 hh.symm), ih h.2]

theorem alookup_filterMap_subkeys {α β γ : Type} [DecidableEq α]
    (l : List (α × β)) (g : β → Option γ) (a : α)
    (h : a ∉ l.map Prod.fst) :
    alookup (l.filterMap (fun p => (g p.2).map (fun e => (p.1, e)))) a =
      none := by
  induction l with
  | nil => rfl
  | cons p rest ih =>
    rcases p with ⟨pk, pv⟩
    simp only [List.map_cons, List.mem_cons] at h
    push_neg at h
    rcases hg : g pv with _ | e
    · simp only [List.filterMap_cons, hg, Option.map_none']
      exact ih h.2
    · simp only [List.filterMap_cons, hg, Option.map_some']
      rw [alookup_cons, if_neg (fun hh => h.1 hh.symm)]
      exact ih h.2

theorem alookup_filterMap_lift {α β γ : Type} [DecidableEq α]
    (l : List (α × β)) (g : β → Option γ) (a : α)
    (hnd : (l.map Prod.fst).Nodup) :
    alookup (l.filterMap (fun p => (g p.2).map (fun e => (p.1, e)))) a =
      (alookup l a).bind g := by
  induction l with
  | nil => rfl
  | cons p rest ih =>
    rcases p with ⟨pk, pv⟩
    have hnd₂ : (rest.map Prod.fst).Nodup := (List.nodup_cons.mp hnd).2
    have hpk : pk ∉ rest.map Prod.fst := (List.nodup_cons.mp hnd).1
    by_cases hk : pk = a
    · subst hk
      rcases hg : g pv with _ | e
      · simp only [List.filterMap_cons, hg, Option.map_none']
        rw [alookup_filterMap_subkeys rest g pk hpk]
        rw [alookup_cons, if_pos rfl]
        simp [hg]
      · simp only [List.filterMap_cons, hg, Option.map_some']
        rw [alookup_cons, if_pos rfl, alookup_cons, if_pos rfl]
        simp [hg]
    · rcases hg : g pv with _ | e
      · simp only [List.filterMap_cons, hg, Option.map_none']
        rw [ih hnd₂, alookup_cons, if_neg hk]
      · simp only [List.filterMap_cons, hg, Option.map_some']
        rw [alookup_cons, if_neg hk, alookup_cons, if_neg hk, ih hnd₂]

/-- C8: cloning the engine yields a cache holding exactly the
dirty-clones of the original's Dirty entries (CleanFresh and Committed
entries are not copied), an empty checkpoint stack, the original's root,
and the backend obtained through the backend's boxed-clone contract (an
independent value copy in the model). -/
theorem claim_c8_clone (s : State) (hnd : (s.cache.map Prod.fst).Nodup) :
    s.cloneState.db = s.db ∧ s.cloneState.root = s.root ∧
    s.cloneState.checkpoints = [] ∧
    s.cloneState.accountStartNonce = s.accountStartNonce ∧
    ∀ a, alookup s.cloneState.cache a =
      (alookup s.cache a).bind AccountEntry.cloneIfDirty := by
  refine ⟨rfl, rfl, rfl, rfl, ?_⟩
  intro a
  exact alookup_filterMap_lift s.cache AccountEntry.cloneIfDirty a hnd

/-- Witness for C8 on the engine reached by `inc_nonce(7)` from fresh:
its single cache entry is dirty and survives the clone. -/
theorem claim_c8_clone_witness :
    preState.cloneState.db = preState.db ∧
    preState.cloneState.root = preState.root ∧
    preState.cloneState.checkpoints = [] ∧
    preState.cloneState.accountStartNonce = preState.accountStartNonce ∧
    ∀ a, alookup preState.cloneState.cache a =
      (alookup preState.cache a).bind AccountEntry.cloneIfDirty :=
  claim_c8_clone preState (by decide)

theorem updateAccountCache_fields (q : RequireCache) (db : Backend)
    (a : Account) :
    (State.updateAccountCache q db a).codeHash = a.codeHash ∧
    (State.updateAccountCache q db a).nonce = a.nonce := by
  rcases a with ⟨n, sr, ch, cb, ah, ab, ov⟩
  rcases q <;> rcases cb with _ | c <;> rcases ab with _ | b <;>
    exact ⟨rfl, rfl⟩

theorem existsAndHasCodeOrNonce_fst (s : State) (a : Address) :
    (s.existsAndHasCodeOrNonce a).1 =
      (s.ensureCached RequireCache.codeSize a).1.map (fun acc? =>
        acc?.elim false (fun acc =>
          acc.codeHashV != HASH_EMPTY ||
            acc.nonce != s.accountStartNonce)) := rfl

/-- C9: `exists_and_has_code_or_nonce` answers false when the account
is absent (cached as explicitly absent, or missing from both the cache
and the top trie), and for a present account answers exactly whether its
code hash differs from `EMPTY_HASH` or its nonce differs from the
configured start nonce (a cached account is consulted after its
code-blob refresh, which moves neither field). -/
theorem claim_c9_exists_code_or_nonce (s : State) (a : Address) :
    (∀ e, alookup s.cache a = some e → e.account = none →
      (s.existsAndHasCodeOrNonce a).1 = Except.ok false) ∧
    (alookup s.cache a = none → s.db.topTrie s.root a = some none →
      (s.existsAndHasCodeOrNonce a).1 = Except.ok false) ∧
    (∀ e acct, alookup s.cache a = some e → e.account = some acct →
      (s.existsAndHasCodeOrNonce a).1 =
        Except.ok (acct.codeHashV != HASH_EMPTY ||
          acct.nonce != s.accountStartNonce)) ∧
    (∀ r, alookup s.cache a = none →
      s.db.topTrie s.root a = some (some r) →
      (s.existsAndHasCodeOrNonce a).1 =
        Except.ok ((Account.fromRlp r).codeHashV != HASH_EMPTY ||
          (Account.fromRlp r).nonce != s.accountStartNonce)) := by
  refine ⟨?_, ?_, ?_, ?_⟩
  · intro e he hacc
    rw [existsAndHasCodeOrNonce_fst, ensureCached_eq]
    simp [ecVal, he, hacc, Except.map, Option.elim]
  · intro he ht
    rw [existsAndHasCodeOrNonce_fst, ensureCached_eq]
    simp [ecVal, he, ht, Except.map, Option.elim]
  · intro e acct he hacc
    rw [existsAndHasCodeOrNonce_fst, ensureCached_eq]
    have hf := updateAccountCache_fields RequireCache.codeSize s.db acct
    simp [ecVal, he, hacc, Except.map, Option.elim, Account.codeHashV,
      hf.1, hf.2]
  · intro r he ht
    rw [existsAndHasCodeOrNonce_fst, ensureCached_eq]
    have hf := updateAccountCache_fields RequireCache.codeSize s.db
      (Account.fromRlp r)
    simp [ecVal, he, ht, Except.map, Option.elim, Account.codeHashV,
      hf.1, hf.2]

/-- Witness for C9: a fresh engine answers false at an absent address,
and the engine holding a dirty basic account with nonce 1 at address 7
answers true there. -/
theorem claim_c9_exists_code_or_nonce_witness :
    (emptyState.existsAndHasCodeOrNonce 5).1 = Except.ok false ∧
    (preState.existsAndHasCodeOrNonce 7).1 = Except.ok true :=
  ⟨(claim_c9_exists_code_or_nonce emptyState 5).2.1 rfl rfl,
    ((claim_c9_exists_code_or_nonce preState 7).2.2.1
        { account := some ((Account.newBasic 0).incNonce)
          state := AccountState.Dirty }
        ((Account.newBasic 0).incNonce) rfl rfl).trans rfl⟩

/-! ## Lemmas for the set-storage idempotence claim -/

theorem rofa_of_contained {s : State} {a : Address} {e : AccountEntry}
    (he : alookup s.cache a = some e) (rc ra : Bool) (d : Account)
    (nd g : Account → Account) :
    s.requireOrFromApply a rc ra d nd g =
      Except.ok
        { s with
          cache := ainsert a
            { account := some (rofaAcct s.db rc ra d nd g e)
              state := AccountState.Dirty } s.cache
          checkpoints := headMap (noteFrame s.cache a) s.checkpoints } := by
  rw [requireOrFromApply_eq]
  have hc : acontains s.cache a = true := by simp [acontains, he]
  simp only [rofaCache₁, hc, if_pos, rofaCache₂, he]

theorem rofaAcct_basic (db : Backend) (d : Account)
    (f : Account → Account) (e : AccountEntry) :
    rofaAcct db false false d id f e =
      f (match e.account with | some acc => acc | none => d) := rfl

theorem cachedStorageAt_setStorage (acc : Account) (k v : Hash) :
    (Account.setStorage k v acc).cachedStorageAt k = some v := by
  simp [Account.setStorage, Account.cachedStorageAt, alookup_ainsert]

theorem setStorage_of_eq {s s₁ : State} {a : Address} {k v : Hash}
    (hsa : s.storageAt a k = (Except.ok v, s₁)) :
    s.setStorage a k v = (Except.ok (), s₁) := by
  unfold State.setStorage
  simp only [hsa]
  simp

theorem setStorage_of_error {s s₁ : State} {a : Address} {k v : Hash}
    {err : TrieErr} (hsa : s.storageAt a k = (Except.error err, s₁)) :
    s.setStorage a k v = (Except.error err, s₁) := by
  unfold State.setStorage
  simp only [hsa]

theorem setStorage_of_ne {s s₁ : State} {a : Address} {k v cur : Hash}
    (hsa : s.storageAt a k = (Except.ok cur, s₁)) (hne : cur ≠ v)
    {e : AccountEntry} (he : alookup s₁.cache a = some e) :
    s.setStorage a k v =
      (Except.ok (),
        { s₁ with
          cache := ainsert a
            { account := some (rofaAcct s₁.db false false
                (Account.newBasic s₁.accountStartNonce) id
                (Account.setStorage k v) e)
              state := AccountState.Dirty } s₁.cache
          checkpoints := headMap (noteFrame s₁.cache a) s₁.checkpoints }) := by
  unfold State.setStorage
  simp only [hsa]
  rw [if_neg hne, rofa_of_contained he false false _ id
    (Account.setStorage k v)]

theorem storageAt_contains {s s₁ : State} {a : Address} {k cur : Hash}
    (hsa : s.storageAt a k = (Except.ok cur, s₁)) :
    ∃ e, alookup s₁.cache a = some e := by
  rw [storageAt_eq, Prod.mk.injEq] at hsa
  obtain ⟨hval, hst⟩ := hsa
  rcases h1 : alookup s.cache a with _ | e0
  · rcases h2 : s.db.topTrie s.root a with _ | maybe
    · simp [saVal, h1, h2] at hval
    · refine ⟨AccountEntry.newClean (maybe.map Account.fromRlp), ?_⟩
      rw [← hst]
      simp [saCache, h1, h2, alookup_ainsert]
  · refine ⟨e0, ?_⟩
    rw [← hst]
    simp [saCache, h1]

theorem storageAt_of_overlay_hit {s : State} {a : Address} {k v : Hash}
    {acct : Account}
    (he : alookup s.cache a =
      some { account := some acct, state := AccountState.Dirty })
    (hov : acct.cachedStorageAt k = some v) :
    s.storageAt a k = (Except.ok v, s) := by
  unfold State.storageAt
  simp only [he, hov]

theorem storageAt_stable {s s₁ : State} {a : Address} {k v : Hash}
    (hsa : s.storageAt a k = (Except.ok v, s₁)) :
    s₁.storageAt a k = (Except.ok v, s₁) := by
  have hsa' := hsa
  rw [storageAt_eq, Prod.mk.injEq] at hsa'
  obtain ⟨hval, hst⟩ := hsa'
  rcases h1 : alookup s.cache a with _ | e0
  · rcases h2 : s.db.topTrie s.root a with _ | maybe
    · simp [saVal, h1, h2] at hval
    · have hcache : s₁.cache = ainsert a
          (AccountEntry.newClean (maybe.map Account.fromRlp)) s.cache := by
        rw [← hst]
        simp [saCache, h1, h2]
      have hdb : s₁.db = s.db := by rw [← hst]
      have halk : alookup s₁.cache a =
          some (AccountEntry.newClean (maybe.map Account.fromRlp)) := by
        rw [hcache, alookup_ainsert, if_pos rfl]
      have hveq : (Except.ok v : Except TrieErr Hash) =
          Except.ok (match maybe.map Account.fromRlp with
            | some acct => acct.storageAt s.db k
            | none => 0) := by
        rw [← hval]
        simp [saVal, h1, h2]
      rcases maybe with _ | r
      · have hv0 : v = 0 := by simpa using hveq
        subst hv0
        unfold State.storageAt
        simp only [halk, Option.map_none', AccountEntry.newClean]
      · have hvr : v = (Account.fromRlp r).storageAt s.db k := by
          simpa using hveq
        have hnone : (Account.fromRlp r).cachedStorageAt k = none := rfl
        unfold State.storageAt
        simp only [halk, Option.map_some', AccountEntry.newClean, hnone, hdb]
        rw [hvr]
  · have hs1 : s₁ = s := by
      rw [← hst]
      simp [saCache, h1]
    subst hs1
    exact hsa

/-- C7: `set_storage(a, key, value)` is idempotent.  When the currently
stored value (overlay first, then per-account trie, zero for an absent
account — exactly what `storage_at` answers) already equals `value`,
nothing is dirtied: the call returns the `storage_at` state itself, the
checkpoint stack is unchanged, and every cache entry is either an old
entry or a freshly installed `CleanFresh` one at the address.  Otherwise
the account is materialised (a basic account at start-nonce when it was
absent from cache and trie), marked Dirty, and its overlay holds the new
value.  Hence a second identical call leaves the engine exactly where
the first left it. -/
theorem claim_c7_set_storage (s : State) (a : Address) (k v : Hash) :
    (∀ s₁, s.storageAt a k = (Except.ok v, s₁) →
      s.setStorage a k v = (Except.ok (), s₁) ∧
      s₁.checkpoints = s.checkpoints ∧
      ∀ b e, alookup s₁.cache b = some e →
        alookup s.cache b = some e ∨
          (b = a ∧ e.state = AccountState.CleanFresh)) ∧
    (∀ cur s₁, s.storageAt a k = (Except.ok cur, s₁) → cur ≠ v →
      ∃ s₂ acct, s.setStorage a k v = (Except.ok (), s₂) ∧
        alookup s₂.cache a =
          some { account := some acct, state := AccountState.Dirty } ∧
        acct.cachedStorageAt k = some v ∧
        (alookup s.cache a = none → s.db.topTrie s.root a = some none →
          acct = Account.setStorage k v
            (Account.newBasic s.accountStartNonce))) ∧
    (∀ s₁, s.setStorage a k v = (Except.ok (), s₁) →
      s₁.setStorage a k v = (Except.ok (), s₁)) := by
  refine ⟨?_, ?_, ?_⟩
  · intro s₁ hsa
    have hsa' := hsa
    rw [storageAt_eq, Prod.mk.injEq] at hsa'
    obtain ⟨hval, hst⟩ := hsa'
    refine ⟨setStorage_of_eq hsa, by rw [← hst], ?_⟩
    intro b e hb
    rw [← hst] at hb
    revert hb
    rcases h1 : alookup s.cache a with _ | e0
    · rcases h2 : s.db.topTrie s.root a with _ | maybe
      · simp only [saCache, h1, h2]
        exact fun hb => Or.inl hb
      · simp only [saCache, h1, h2]
        intro hb
        by_cases hba : a = b
        · subst hba
          rw [alookup_ainsert, if_pos rfl] at hb
          have hbe : AccountEntry.newClean (maybe.map Account.fromRlp) = e := by
            injection hb
          exact Or.inr ⟨rfl, by rw [← hbe]; rfl⟩
        · rw [alookup_ainsert, if_neg hba] at hb
          exact Or.inl hb
    · simp only [saCache, h1]
      exact fun hb => Or.inl hb
  · intro cur s₁ hsa hne
    obtain ⟨e, he⟩ := storageAt_contains hsa
    refine ⟨_, rofaAcct s₁.db false false
        (Account.newBasic s₁.accountStartNonce) id
        (Account.setStorage k v) e,
      setStorage_of_ne hsa hne he, ?_, ?_, ?_⟩
    · rw [alookup_ainsert, if_pos rfl]
    · rw [rofaAcct_basic]
      exact cachedStorageAt_setStorage _ k v
    · intro h1 h2
      have hsa' := hsa
      rw [storageAt_eq, Prod.mk.injEq] at hsa'
      obtain ⟨hval, hst⟩ := hsa'
      have hcache : s₁.cache =
          ainsert a (AccountEntry.newClean none) s.cache := by
        rw [← hst]
        simp [saCache, h1, h2]
      have hsn : s₁.accountStartNonce = s.accountStartNonce := by
        rw [← hst]
      have hee : e = AccountEntry.newClean none := by
        have h3 := he
        rw [hcache, alookup_ainsert, if_pos rfl] at h3
        injection h3 with h4
        exact h4.symm
      rw [rofaAcct_basic, hee, hsn]
      rfl
  · intro s₁ hss
    rcases hsa : s.storageAt a k with ⟨r, st⟩
    rcases r with err | cur
    · have hcontra : s.setStorage a k v = (Except.error err, st) :=
        setStorage_of_error hsa
      have := hcontra.symm.trans hss
      simp at this
    · by_cases hv : cur = v
      · subst hv
        have h₂ := (setStorage_of_eq hsa).symm.trans hss
        have hst : st = s₁ := by
          have := congrArg Prod.snd h₂
          simpa using this
        subst hst
        exact setStorage_of_eq (storageAt_stable hsa)
      · obtain ⟨e, he⟩ := storageAt_contains hsa
        have hset := setStorage_of_ne hsa hv he
        have h₂ := hset.symm.trans hss
        have hR := congrArg Prod.snd h₂
        simp only at hR
        have he₂ : alookup s₁.cache a =
            some ⟨some (rofaAcct st.db false false
                (Account.newBasic st.accountStartNonce) id
                (Account.setStorage k v) e), AccountState.Dirty⟩ := by
          rw [← hR, alookup_ainsert, if_pos rfl]
        apply setStorage_of_eq
        apply storageAt_of_overlay_hit he₂
        rw [rofaAcct_basic]
        exact cachedStorageAt_setStorage _ k v

/-- Witness for C7 on a fresh engine: setting a cell to its current
value (zero) is a no-op beyond the clean install, setting it to a new
value dirties the account, and the second identical call is the
identity. -/
theorem claim_c7_set_storage_witness :
    (emptyState.setStorage 4 1 0 =
      (Except.ok (),
        { emptyState with
          cache := ainsert 4 (AccountEntry.newClean none) emptyState.cache })) ∧
    ((emptyState.setStorage 4 1 9).2.setStorage 4 1 9 =
      (Except.ok (), (emptyState.setStorage 4 1 9).2)) :=
  ⟨((claim_c7_set_storage emptyState 4 1 0).1
      { emptyState with
        cache := ainsert 4 (AccountEntry.newClean none) emptyState.cache }
      rfl).1,
    (claim_c7_set_storage emptyState 4 1 9).2.2
      (emptyState.setStorage 4 1 9).2 rfl⟩

end Cita
